import Mathlib

/-!
Shallow embedding of the core of `anyrouter_auto` (OAuth callback listener,
credential store, authorization flow, daily scheduler) and proofs about it.

Python floats coming from `time.time()` are modelled as rationals; machine
details of the wire (socket accept, threading) are modelled by the order in
which requests arrive at the single `handle_request` call.
-/

namespace AnyrouterAuto

/-- Timestamps (`time.time()` floats) modelled as rationals. -/
abbrev Time := ℚ

/-- Python truthiness of an optional string: `not x` holds when `x` is
`None` or the empty string. -/
def falsyOptStr : Option String → Bool
  | none => true
  | some s => s = ""

/-! ### credentials.py: CredentialRecord -/

/-- Embeds `CredentialRecord` (credentials.py lines 13-41). `expires_at` is a
timestamp rational. -/
structure CredentialRecord where
  access_token : String
  refresh_token : Option String := none
  expires_at : Option Time := none
  scope : Option String := none
  client_id : Option String := none
deriving Repr, DecidableEq

/-- Embeds `CredentialRecord.is_expired` (credentials.py lines 23-27):
false when `expires_at` is `None`, else `time.time() >= expires_at`.
`now` stands for the `time.time()` call. -/
def CredentialRecord.is_expired (r : CredentialRecord) (now : Time) : Bool :=
  match r.expires_at with
  | none => false
  | some e => decide (now ≥ e)

/-! ### auth.py: CallbackHandler and wait_for_callback -/

/-- Embeds `AuthorizationResult` (auth.py lines 23-27). -/
structure AuthorizationResult where
  code : String
  state : String
  received_at : Time
deriving Repr, DecidableEq

/-- An incoming GET request, after `urllib.parse.urlparse` and `parse_qs`:
the request path and the parsed query parameters (first value per key, in
order; `parse_qs` drops blank values, so values are nonempty in reachable
states). -/
structure CallbackRequest where
  path : String
  params : List (String × String)
deriving Repr, DecidableEq

/-- The observable effect of one `do_GET` call: HTTP status sent, the
`self.result` assignment performed (if any) — an attribute of the
per-request handler instance, not of the `CallbackHandler` class — and
whether `event.set()` ran. -/
structure HandlerOutcome where
  status : Nat
  result : Option AuthorizationResult
  eventSet : Bool
deriving Repr, DecidableEq

/-- Models `params.get(k, [None])[0]`: first value for the key. -/
def paramGet (params : List (String × String)) (k : String) : Option String :=
  params.lookup k

/-- Embeds `CallbackHandler.do_GET` (auth.py lines 37-57).
`expected_state` and the presence of the event are the handler's class-level
fields; `now` is the `time.time()` call in line 51. -/
def do_GET (expected_state : Option String) (eventPresent : Bool) (now : Time)
    (req : CallbackRequest) : HandlerOutcome :=
  if req.path ≠ "/callback" then
    ⟨404, none, false⟩
  else if falsyOptStr (paramGet req.params "code")
      || falsyOptStr (paramGet req.params "state") then
    ⟨400, none, false⟩
  else if !falsyOptStr expected_state
      && paramGet req.params "state" ≠ expected_state then
    ⟨401, none, false⟩
  else
    ⟨200,
      some ⟨(paramGet req.params "code").getD "", (paramGet req.params "state").getD "", now⟩,
      eventPresent⟩

inductive WaitError
  | timeout
deriving Repr, DecidableEq

/-- Embeds `AuthorizationFlow.wait_for_callback` (auth.py lines 87-100).
The server thread runs `server.handle_request()`, which processes exactly
one incoming request (the first to arrive); `arrivals` lists the requests
arriving within the timeout window together with their arrival times.
`finished` is the value of `event.wait(timeout)`: true exactly when the
first request reached the 200 branch of `do_GET` and called `event.set()`.
The function then reads `CallbackHandler.result` — the class attribute.
`do_GET` stores its `AuthorizationResult` with `self.result = ...`, which
creates an attribute on the per-request handler instance and leaves the
class attribute untouched; no statement in the program assigns the class
attribute anything but `None` (the class-body initializer and the reset in
line 99). That read is therefore always `None`, and the guard
`if not finished or CallbackHandler.result is None` raises `TimeoutError`
on every path; lines 99-100 are dead code. -/
def wait_for_callback (state : String) (arrivals : List (CallbackRequest × Time)) :
    Except WaitError AuthorizationResult :=
  let finished :=
    match arrivals with
    | [] => false
    | (req, t) :: _ => (do_GET (some state) true t req).eventSet
  let classResult : Option AuthorizationResult := none
  if !finished || classResult.isNone then
    .error .timeout
  else
    match classResult with
    | some r => .ok r
    | none => .error .timeout

/-! ### scheduler.py: ScheduleState and the run loop -/

/-- Embeds `ScheduleState` (scheduler.py lines 19-30). -/
structure ScheduleState where
  hour : Nat
  minute : Nat
  last_run : Option Time := none
deriving Repr, DecidableEq

/-- One post-wait fire cycle of `DailyScheduler._run_loop` (scheduler.py
lines 91-96): run the callback; on success set `state.last_run = time.time()`
and persist via `save_state`; if the callback raises (`jobOk = false`) the
exception is caught and logged, leaving state and file untouched.
`file` is the schedule-state file content, at record level. -/
def fireCycle (st : ScheduleState) (file : Option ScheduleState) (jobOk : Bool)
    (now : Time) : ScheduleState × Option ScheduleState :=
  if jobOk then
    let st' := { st with last_run := some now }
    (st', some st')
  else
    (st, file)

/-- Iterates `fireCycle` over successive wait-elapsed cycles of the while
loop (scheduler.py lines 81-96); the caught exception never exits the loop,
so every listed cycle is processed. -/
def runCycles (st : ScheduleState) (file : Option ScheduleState) :
    List (Bool × Time) → ScheduleState × Option ScheduleState
  | [] => (st, file)
  | (jobOk, t) :: rest =>
    let p := fireCycle st file jobOk t
    runCycles p.1 p.2 rest

/-- Naive local `datetime.datetime`, with the calendar date modelled as a
day index (an integer); `+ timedelta(days=1)` is `day + 1`, and comparison
of two datetimes is field-lexicographic, i.e. comparison of `toMicros`
when the fields are in range. -/
structure PyDateTime where
  day : ℤ
  hour : Nat
  minute : Nat
  second : Nat
  microsecond : Nat
deriving Repr, DecidableEq

/-- Microseconds since the day-0 midnight; naive-datetime comparison equals
comparison of this value for in-range fields. -/
def PyDateTime.toMicros (d : PyDateTime) : ℤ :=
  (((d.day * 24 + d.hour) * 60 + d.minute) * 60 + d.second) * 1000000 + d.microsecond

/-- Embeds the target computation of `DailyScheduler._run_loop`
(scheduler.py lines 82-85): `target = now.replace(hour=h, minute=m,
second=0, microsecond=0)`; `if target <= now: target += timedelta(days=1)`. -/
def computeTarget (now : PyDateTime) (hour minute : Nat) : PyDateTime :=
  let target : PyDateTime :=
    { now with hour := hour, minute := minute, second := 0, microsecond := 0 }
  if target.toMicros ≤ now.toMicros then { target with day := target.day + 1 }
  else target

/-! ### SHA-256 (hashlib.sha256), used by credentials._derive_key

A byte is a `Nat` below 256; 32-bit words are `Nat` reduced mod 2^32. -/

/-- Reduce to a 32-bit word. -/
def w32 (n : Nat) : Nat := n % 4294967296

/-- Right rotation of a 32-bit word. -/
def rotr (n x : Nat) : Nat := w32 ((x >>> n) ||| (x <<< (32 - n)))

/-- Big-endian bytes of `n`, `k` bytes wide. -/
def toBytesBE (k : Nat) (n : Nat) : List Nat :=
  (List.range k).map fun i => n >>> (8 * (k - 1 - i)) % 256

/-- SHA-256 round constants. -/
def shaK : List Nat :=
  [1116352408, 1899447441, 3049323471, 3921009573, 961987163, 1508970993,
   2453635748, 2870763221, 3624381080, 310598401, 607225278, 1426881987,
   1925078388, 2162078206, 2614888103, 3248222580, 3835390401, 4022224774,
   264347078, 604807628, 770255983, 1249150122, 1555081692, 1996064986,
   2554220882, 2821834349, 2952996808, 3210313671, 3336571891, 3584528711,
   113926993, 338241895, 666307205, 773529912, 1294757372, 1396182291,
   1695183700, 1986661051, 2177026350, 2456956037, 2730485921, 2820302411,
   3259730800, 3345764771, 3516065817, 3600352804, 4094571909, 275423344,
   430227734, 506948616, 659060556, 883997877, 958139571, 1322822218,
   1537002063, 1747873779, 1955562222, 2024104815, 2227730452, 2361852424,
   2428436474, 2756734187, 3204031479, 3329325298]

/-- The eight working variables of the compression function. -/
structure Hash8 where
  a : Nat
  b : Nat
  c : Nat
  d : Nat
  e : Nat
  f : Nat
  g : Nat
  h : Nat
deriving Repr

/-- SHA-256 initial hash value. -/
def shaInit : Hash8 :=
  ⟨1779033703, 3144134277, 1013904242, 2773480762,
   1359893119, 2600822924, 528734635, 1541459225⟩

/-- SHA-256 padding: append 0x80, zero bytes and the 64-bit big-endian bit
length so the total length is a multiple of 64. -/
def padMessage (msg : List Nat) : List Nat :=
  msg ++ [0x80] ++ List.replicate ((64 - (msg.length + 9) % 64) % 64) 0
    ++ toBytesBE 8 (8 * msg.length)

/-- Split into 64-byte chunks. -/
def chunks64 (l : List Nat) : List (List Nat) :=
  if h : l = [] then []
  else
    have : (List.drop 64 l).length < l.length := by
      rw [List.length_drop]
      have : 0 < l.length := List.length_pos.mpr h
      omega
    l.take 64 :: chunks64 (l.drop 64)
termination_by l.length

/-- Pack big-endian bytes into 32-bit words, four bytes per word. -/
def toWordsBE : List Nat → List Nat
  | a :: b :: c :: d :: rest => (((a * 256 + b) * 256 + c) * 256 + d) :: toWordsBE rest
  | _ => []

/-- Lowercase sigma-0 of the message schedule. -/
def ssig0 (x : Nat) : Nat := rotr 7 x ^^^ rotr 18 x ^^^ (x >>> 3)

/-- Lowercase sigma-1 of the message schedule. -/
def ssig1 (x : Nat) : Nat := rotr 17 x ^^^ rotr 19 x ^^^ (x >>> 10)

/-- Extend the 16 chunk words to the 64-entry message schedule. -/
def extendWords (w : List Nat) : List Nat :=
  (List.range 48).foldl
    (fun acc _ =>
      acc ++ [w32 (ssig1 (acc.getD (acc.length - 2) 0) + acc.getD (acc.length - 7) 0
        + ssig0 (acc.getD (acc.length - 15) 0) + acc.getD (acc.length - 16) 0)])
    w

/-- One round of the SHA-256 compression function; `kw` is the pair of a
round constant and a schedule word. -/
def compressRound (st : Hash8) (kw : Nat × Nat) : Hash8 :=
  let s1 := rotr 6 st.e ^^^ rotr 11 st.e ^^^ rotr 25 st.e
  let ch := (st.e &&& st.f) ^^^ ((4294967295 ^^^ st.e) &&& st.g)
  let temp1 := w32 (st.h + s1 + ch + kw.1 + kw.2)
  let s0 := rotr 2 st.a ^^^ rotr 13 st.a ^^^ rotr 22 st.a
  let maj := (st.a &&& st.b) ^^^ (st.a &&& st.c) ^^^ (st.b &&& st.c)
  let temp2 := w32 (s0 + maj)
  ⟨w32 (temp1 + temp2), st.a, st.b, st.c, w32 (st.d + temp1), st.e, st.f, st.g⟩

/-- Process one 64-byte chunk. -/
def compressChunk (st : Hash8) (chunk : List Nat) : Hash8 :=
  let ws := extendWords (toWordsBE chunk)
  let r := (shaK.zip ws).foldl compressRound st
  ⟨w32 (st.a + r.a), w32 (st.b + r.b), w32 (st.c + r.c), w32 (st.d + r.d),
   w32 (st.e + r.e), w32 (st.f + r.f), w32 (st.g + r.g), w32 (st.h + r.h)⟩

/-- SHA-256 of a byte list, as the 32-byte big-endian digest. -/
def sha256 (msg : List Nat) : List Nat :=
  let fin := (chunks64 (padMessage msg)).foldl compressChunk shaInit
  toBytesBE 4 fin.a ++ toBytesBE 4 fin.b ++ toBytesBE 4 fin.c ++ toBytesBE 4 fin.d
    ++ toBytesBE 4 fin.e ++ toBytesBE 4 fin.f ++ toBytesBE 4 fin.g ++ toBytesBE 4 fin.h

/-! ### UTF-8 encoding (str.encode) -/

/-- UTF-8 bytes of one code point (divisions and remainders stand for the
bit operations; the ranges make them equal). -/
def encodeChar (c : Nat) : List Nat :=
  if c < 0x80 then [c]
  else if c < 0x800 then [0xC0 + c / 64, 0x80 + c % 64]
  else if c < 0x10000 then [0xE0 + c / 4096, 0x80 + c / 64 % 64, 0x80 + c % 64]
  else [0xF0 + c / 262144, 0x80 + c / 4096 % 64, 0x80 + c / 64 % 64, 0x80 + c % 64]

/-- Models `text.encode("utf-8")`. -/
def strToUtf8 (s : String) : List Nat :=
  (s.data.map Char.toNat).flatMap encodeChar

/-! ### credentials.py: _derive_key and the XOR masking -/

/-- The body of the `while len(key) < size` loop of `_derive_key`
(credentials.py lines 106-109), unrolled a given number of times: each
iteration appends the current digest and rehashes it. -/
def deriveKeyLoop (digest : List Nat) : Nat → List Nat
  | 0 => []
  | b + 1 => digest ++ deriveKeyLoop (sha256 digest) b

/-- Embeds `_derive_key` (credentials.py lines 101-110). Each digest has 32
bytes (`sha256_length`), so the while loop runs ceil(size/32) times before
`key[:size]` truncates. -/
def derive_key (passphrase : String) (size : Nat) : List Nat :=
  (deriveKeyLoop (sha256 (strToUtf8 passphrase)) ((size + 31) / 32)).take size

/-- The shared byte-level core of `CredentialStore._encode` (credentials.py
lines 87-90) and `_decode` (lines 94-97): with an empty passphrase the
buffer passes through unmasked, otherwise it is XORed bytewise with the
keystream `_derive_key(passphrase, len(buffer))` (`bytes(b ^ k for b, k in
zip(buffer, key))`). -/
def maskBytes (passphrase : String) (buffer : List Nat) : List Nat :=
  if passphrase = "" then buffer
  else List.zipWith Nat.xor buffer (derive_key passphrase buffer.length)

/-! ### UTF-8 decoding (bytes.decode) -/

/-- Decode UTF-8 bytes to code points, rejecting what CPython's utf-8 codec
rejects: invalid lead bytes, bad continuation bytes, overlong forms,
surrogates and out-of-range values. The fuel argument only forces
termination: one unit is spent per decoded character, and each character
consumes at least one byte, so fuel = length of the input always
suffices (see `utf8Decode`). -/
def utf8DecodeF : Nat → List Nat → Option (List Nat)
  | _, [] => some []
  | 0, _ :: _ => none
  | fuel + 1, b :: rest =>
    if b < 0x80 then
      (utf8DecodeF fuel rest).map (b :: ·)
    else if b < 0xC2 then none
    else if b < 0xE0 then
      match rest with
      | c1 :: rest1 =>
        if 0x80 ≤ c1 ∧ c1 < 0xC0 then
          (utf8DecodeF fuel rest1).map (((b - 0xC0) * 64 + (c1 - 0x80)) :: ·)
        else none
      | [] => none
    else if b < 0xF0 then
      match rest with
      | c1 :: c2 :: rest2 =>
        if (0x80 ≤ c1 ∧ c1 < 0xC0) ∧ (0x80 ≤ c2 ∧ c2 < 0xC0) then
          if 0x800 ≤ (b - 0xE0) * 4096 + (c1 - 0x80) * 64 + (c2 - 0x80) ∧
              ¬(0xD800 ≤ (b - 0xE0) * 4096 + (c1 - 0x80) * 64 + (c2 - 0x80) ∧
                (b - 0xE0) * 4096 + (c1 - 0x80) * 64 + (c2 - 0x80) < 0xE000) then
            (utf8DecodeF fuel rest2).map
              (((b - 0xE0) * 4096 + (c1 - 0x80) * 64 + (c2 - 0x80)) :: ·)
          else none
        else none
      | _ => none
    else if b < 0xF5 then
      match rest with
      | c1 :: c2 :: c3 :: rest3 =>
        if (0x80 ≤ c1 ∧ c1 < 0xC0) ∧ (0x80 ≤ c2 ∧ c2 < 0xC0) ∧ (0x80 ≤ c3 ∧ c3 < 0xC0) then
          if 0x10000 ≤ (b - 0xF0) * 262144 + (c1 - 0x80) * 4096 + (c2 - 0x80) * 64 + (c3 - 0x80) ∧
              (b - 0xF0) * 262144 + (c1 - 0x80) * 4096 + (c2 - 0x80) * 64 + (c3 - 0x80) < 0x110000 then
            (utf8DecodeF fuel rest3).map
              (((b - 0xF0) * 262144 + (c1 - 0x80) * 4096 + (c2 - 0x80) * 64 + (c3 - 0x80)) :: ·)
          else none
        else none
      | _ => none
    else none

/-- Decode UTF-8 bytes to code points; fuel = input length always
suffices because each decoded character consumes at least one byte. -/
def utf8Decode (l : List Nat) : Option (List Nat) :=
  utf8DecodeF l.length l

/-- Models `data.decode("utf-8")`: the decoded code points assembled into a
string; `none` models UnicodeDecodeError. The decoder only produces valid
scalar values, so `Char.ofNat` is exact here. -/
def utf8ToStr (bs : List Nat) : Option String :=
  (utf8Decode bs).map fun cps => ⟨cps.map Char.ofNat⟩

/-! ### credentials.py: _encode and _decode (string level) -/

/-- Embeds `CredentialStore._encode` (credentials.py lines 85-90):
UTF-8-encode the text and mask it. -/
def CredentialStore_encode (passphrase : String) (text : String) : List Nat :=
  maskBytes passphrase (strToUtf8 text)

/-- Embeds `CredentialStore._decode` (credentials.py lines 93-98): unmask
the bytes and UTF-8-decode them; `none` models UnicodeDecodeError. -/
def CredentialStore_decode (passphrase : String) (data : List Nat) : Option String :=
  utf8ToStr (maskBytes passphrase data)

/-! ### JSON values (the json module)

Numbers carry the exact rational value of the Python number; Python floats
are dyadic rationals and round-trip exactly through json, which the model
mirrors for every rational with a power-of-ten-divisible denominator. -/

inductive Json where
  | null
  | bool (b : Bool)
  | num (q : ℚ)
  | str (s : String)
  | arr (elems : List Json)
  | obj (members : List (String × Json))
deriving Repr

/-! ### json.dumps(..., indent=2, sort_keys=True) -/

/-- Indentation spaces. -/
def spaces (n : Nat) : List Char := List.replicate n ' '

/-- Join chunks with a separator. -/
def joinSep (sep : List Char) : List (List Char) → List Char
  | [] => []
  | [x] => x
  | x :: xs => x ++ sep ++ joinSep sep xs

/-- Lowercase hex digit, as the json module prints in \u escapes. -/
def hexDigitChar (n : Nat) : Char :=
  if n < 10 then Char.ofNat (48 + n) else Char.ofNat (87 + n)

/-- A \uXXXX escape for a code unit below 0x10000. -/
def uEscape (n : Nat) : List Char :=
  ['\\', 'u', hexDigitChar (n / 4096 % 16), hexDigitChar (n / 256 % 16),
   hexDigitChar (n / 16 % 16), hexDigitChar (n % 16)]

/-- How json.dumps (ensure_ascii=True, the default) prints one character:
quote, backslash and the five short control escapes get two-character
escapes; other printable ASCII is copied; everything else becomes \uXXXX
escapes, astral characters as a surrogate pair. -/
def escapeChar (c : Char) : List Char :=
  if c = '"' then ['\\', '"']
  else if c = '\\' then ['\\', '\\']
  else if c = '\n' then ['\\', 'n']
  else if c = '\r' then ['\\', 'r']
  else if c = '\t' then ['\\', 't']
  else if c.toNat = 8 then ['\\', 'b']
  else if c.toNat = 12 then ['\\', 'f']
  else if 0x20 ≤ c.toNat ∧ c.toNat < 0x7F then [c]
  else if c.toNat < 0x10000 then uEscape c.toNat
  else uEscape (0xD800 + (c.toNat - 0x10000) / 1024)
    ++ uEscape (0xDC00 + (c.toNat - 0x10000) % 1024)

/-- A JSON string literal as json.dumps prints it. -/
def printJString (s : String) : List Char :=
  '"' :: s.data.flatMap escapeChar ++ ['"']

/-- Decimal digits of a natural number. -/
def natDigits (n : Nat) : List Char :=
  if n = 0 then ['0']
  else (Nat.digits 10 n).reverse.map fun d => Char.ofNat (48 + d)

/-- Decimal digits padded with leading zeros to a given width. -/
def natDigitsPadded (n width : Nat) : List Char :=
  List.replicate (width - (natDigits n).length) '0' ++ natDigits n

/-- The least k with d dividing 10^k, for 10-smooth d (k never exceeds d). -/
def pow10Exp (d : Nat) : Nat :=
  (((List.range (d + 1)).find? fun k => decide (d ∣ 10 ^ k))).getD 0

/-- How repr() prints the float values appearing in payloads: a plain
signed decimal with at least one fractional digit (`3.0`, `-0.25`).
Exponent notation for very large or small magnitudes is not modelled; the
parser accepts more spellings than the printer emits, as json.loads does. -/
def printNum (q : ℚ) : List Char :=
  (if q.num < 0 then ['-'] else [])
    ++ natDigits ((q.num * 10 ^ pow10Exp q.den / q.den).natAbs / 10 ^ pow10Exp q.den)
    ++ '.' :: (if pow10Exp q.den = 0 then ['0']
      else natDigitsPadded ((q.num * 10 ^ pow10Exp q.den / q.den).natAbs % 10 ^ pow10Exp q.den)
        (pow10Exp q.den))

/-- Insert into a key-sorted list of pairs (string comparison is
code-point lexicographic, as in Python). -/
def insertPair {α : Type} (p : String × α) : List (String × α) → List (String × α)
  | [] => [p]
  | q :: rest => if p.1 ≤ q.1 then p :: q :: rest else q :: insertPair p rest

/-- Key-sort a list of pairs, as sort_keys=True does. -/
def sortPairs {α : Type} : List (String × α) → List (String × α)
  | [] => []
  | p :: rest => insertPair p (sortPairs rest)

/-- json.dumps(v, indent=2, sort_keys=True), at the given indent level.
Values are printed first and the printed members then key-sorted, which
for the distinct keys of a payload equals sorting before printing. -/
def printJson (ind : Nat) : Json → List Char
  | .null => "null".data
  | .bool b => if b then "true".data else "false".data
  | .num q => printNum q
  | .str s => printJString s
  | .arr [] => "[]".data
  | .arr (e0 :: es) =>
    let ps := (e0 :: es).attach.map fun e => printJson (ind + 2) e.1
    '[' :: '\n' :: joinSep (',' :: '\n' :: []) (ps.map fun p => spaces (ind + 2) ++ p)
      ++ '\n' :: (spaces ind ++ "]".data)
  | .obj [] => ['\x7b', '\x7d']
  | .obj (kv0 :: kvs) =>
    let ps := (kv0 :: kvs).attach.map fun kv => (kv.1.1, printJson (ind + 2) kv.1.2)
    '\x7b' :: '\n' ::
      joinSep (',' :: '\n' :: [])
        ((sortPairs ps).map fun kv => spaces (ind + 2) ++ printJString kv.1 ++ ':' :: ' ' :: kv.2)
      ++ '\n' :: (spaces ind ++ ['\x7d'])
termination_by j => sizeOf j
decreasing_by
  · have h := List.sizeOf_lt_of_mem e.2
    simp only [Json.arr.sizeOf_spec]
    omega
  · rcases kv with ⟨⟨k, v⟩, hm⟩
    have h := List.sizeOf_lt_of_mem hm
    simp only [Prod.mk.sizeOf_spec] at h
    simp only [Json.obj.sizeOf_spec]
    omega

/-- Models json.dumps(v, indent=2, sort_keys=True). -/
def json_dumps (v : Json) : String := ⟨printJson 0 v⟩

/-! ### json.loads -/

/-- Skip JSON whitespace. -/
def skipWs : List Char → List Char
  | [] => []
  | c :: rest =>
    if c = ' ' ∨ c = '\t' ∨ c = '\n' ∨ c = '\r' then skipWs rest else c :: rest

/-- Value of one hex digit. -/
def hexVal (c : Char) : Option Nat :=
  if 48 ≤ c.toNat ∧ c.toNat ≤ 57 then some (c.toNat - 48)
  else if 97 ≤ c.toNat ∧ c.toNat ≤ 102 then some (c.toNat - 87)
  else if 65 ≤ c.toNat ∧ c.toNat ≤ 70 then some (c.toNat - 55)
  else none

/-- Four hex digits. -/
def parseHex4 : List Char → Option (Nat × List Char)
  | a :: b :: c :: d :: rest =>
    match hexVal a, hexVal b, hexVal c, hexVal d with
    | some x, some y, some z, some w => some (((x * 16 + y) * 16 + z) * 16 + w, rest)
    | _, _, _, _ => none
  | _ => none

/-- The character named by a short escape. -/
def shortEscape (e : Char) : Option Char :=
  if e = '"' then some '"'
  else if e = '\\' then some '\\'
  else if e = '/' then some '/'
  else if e = 'b' then some (Char.ofNat 8)
  else if e = 'f' then some (Char.ofNat 12)
  else if e = 'n' then some '\n'
  else if e = 'r' then some '\r'
  else if e = 't' then some '\t'
  else none

/-- One escape sequence after a backslash: a short escape, or \uXXXX with
surrogate pairs joined. Lone surrogates, which Python would keep in its
strings, have no scalar value and are rejected — the printer never emits
them. -/
def parseEscape (cs : List Char) : Option (Char × List Char) :=
  match cs with
  | [] => none
  | e :: rest1 =>
    if e = 'u' then
      (parseHex4 rest1).bind fun nr =>
        if 0xD800 ≤ nr.1 ∧ nr.1 < 0xDC00 then
          if nr.2.take 2 = ['\\', 'u'] then
            (parseHex4 (nr.2.drop 2)).bind fun mr =>
              if 0xDC00 ≤ mr.1 ∧ mr.1 < 0xE000 then
                some (Char.ofNat (0x10000 + (nr.1 - 0xD800) * 1024 + (mr.1 - 0xDC00)), mr.2)
              else none
          else none
        else if 0xDC00 ≤ nr.1 ∧ nr.1 < 0xE000 then none
        else some (Char.ofNat nr.1, nr.2)
    else
      (shortEscape e).map fun ch => (ch, rest1)

/-- Parse a JSON string body after the opening quote, returning the
content and the input after the closing quote. Raw control characters are
rejected (strict mode). One unit of fuel is spent per content character,
and each consumes at least one input character, so fuel = input length
suffices. -/
def parseJStringBody : Nat → List Char → Option (List Char × List Char)
  | 0, _ => none
  | _ + 1, [] => none
  | fuel + 1, c :: rest =>
    if c = '"' then some ([], rest)
    else if c = '\\' then
      (parseEscape rest).bind fun cr =>
        (parseJStringBody fuel cr.2).map fun p => (cr.1 :: p.1, p.2)
    else if c.toNat < 0x20 then none
    else (parseJStringBody fuel rest).map fun p => (c :: p.1, p.2)

/-- Digit test. -/
def isDigitCh (c : Char) : Bool := 48 ≤ c.toNat && c.toNat ≤ 57

/-- Numeric value of a digit run. -/
def digitsToNat (ds : List Char) : Nat :=
  ds.foldl (fun a c => a * 10 + (c.toNat - 48)) 0

/-- The integer-part digits of a JSON number: a single 0, or a nonzero
digit followed by a digit run (leading zeros are invalid JSON). -/
def parseIntPart : List Char → Option (List Char × List Char)
  | [] => none
  | c :: rest =>
    if c = '0' then some (['0'], rest)
    else if isDigitCh c then
      some (c :: (rest.span fun d => isDigitCh d).1, (rest.span fun d => isDigitCh d).2)
    else none

/-- The optional fraction: a dot with a nonempty digit run. -/
def parseFrac : List Char → Option (List Char × List Char)
  | [] => some ([], [])
  | c :: t =>
    if c = '.' then
      if (t.span fun d => isDigitCh d).1.isEmpty then none
      else some ((t.span fun d => isDigitCh d).1, (t.span fun d => isDigitCh d).2)
    else some ([], c :: t)

/-- A signed exponent digit run. -/
def expDigits (sign : ℤ) (u : List Char) : Option (ℤ × List Char) :=
  if (u.span fun d => isDigitCh d).1.isEmpty then none
  else some (sign * (digitsToNat (u.span fun d => isDigitCh d).1 : ℤ),
    (u.span fun d => isDigitCh d).2)

/-- The optional exponent. -/
def parseExp : List Char → Option (ℤ × List Char)
  | [] => some (0, [])
  | c :: t =>
    if c = 'e' ∨ c = 'E' then
      match t with
      | [] => none
      | s :: u =>
        if s = '+' then expDigits 1 u
        else if s = '-' then expDigits (-1) u
        else expDigits 1 (s :: u)
    else some (0, c :: t)

/-- An unsigned JSON number. -/
def parseUNumber (cs : List Char) : Option (ℚ × List Char) :=
  (parseIntPart cs).bind fun ip =>
    (parseFrac ip.2).bind fun fp =>
      (parseExp fp.2).map fun ep =>
        (((digitsToNat (ip.1 ++ fp.1) : ℚ) / (10 : ℚ) ^ fp.1.length) * (10 : ℚ) ^ ep.1, ep.2)

/-- A JSON number with optional sign. -/
def parseNumber : List Char → Option (ℚ × List Char)
  | [] => none
  | c :: t =>
    if c = '-' then (parseUNumber t).map fun p => (-p.1, p.2)
    else parseUNumber (c :: t)

/-- One member of an object: key string, colon, value, then either a comma
and more members (via `loop`) or the closing brace. The input arrives with
leading whitespace already skipped. -/
def parseMemberCore (pv : List Char → Option (Json × List Char))
    (loop : List Char → Option (List (String × Json) × List Char)) :
    List Char → Option (List (String × Json) × List Char)
  | [] => none
  | c :: cs1 =>
    if c = '"' then
      (parseJStringBody cs1.length cs1).bind fun kp =>
        if (skipWs kp.2).take 1 = [':'] then
          (pv ((skipWs kp.2).drop 1)).bind fun vp =>
            if (skipWs vp.2).take 1 = [','] then
              (loop ((skipWs vp.2).drop 1)).map fun p => ((⟨kp.1⟩, vp.1) :: p.1, p.2)
            else if (skipWs vp.2).take 1 = ['\x7d'] then
              some ([(⟨kp.1⟩, vp.1)], (skipWs vp.2).drop 1)
            else none
        else none
    else none

/-- The member loop of a nonempty object, after its opening brace. `pv`
parses one value; one unit of fuel is spent per member. -/
def parseMembersLoop (pv : List Char → Option (Json × List Char)) :
    Nat → List Char → Option (List (String × Json) × List Char)
  | 0, _ => none
  | fuel + 1, cs =>
    parseMemberCore pv (fun cs5 => parseMembersLoop pv fuel cs5) (skipWs cs)

/-- One element of an array: a value, then a comma and more elements (via
`loop`) or the closing bracket. -/
def parseElemCore (pv : List Char → Option (Json × List Char))
    (loop : List Char → Option (List Json × List Char)) (cs : List Char) :
    Option (List Json × List Char) :=
  (pv cs).bind fun vp =>
    if (skipWs vp.2).take 1 = [','] then
      (loop ((skipWs vp.2).drop 1)).map fun p => (vp.1 :: p.1, p.2)
    else if (skipWs vp.2).take 1 = [']'] then some ([vp.1], (skipWs vp.2).drop 1)
    else none

/-- The element loop of a nonempty array. -/
def parseElemsLoop (pv : List Char → Option (Json × List Char)) :
    Nat → List Char → Option (List Json × List Char)
  | 0, _ => none
  | fuel + 1, cs => parseElemCore pv (fun cs2 => parseElemsLoop pv fuel cs2) cs

/-- Dispatch on the first significant character of a value (whitespace
already skipped). NaN and Infinity constants are not modelled. -/
def parseValCore (pv : List Char → Option (Json × List Char)) :
    List Char → Option (Json × List Char)
  | [] => none
  | c :: rest =>
    if c = '"' then
      (parseJStringBody rest.length rest).map fun p => (.str ⟨p.1⟩, p.2)
    else if c = '\x7b' then
      if (skipWs rest).take 1 = ['\x7d'] then some (.obj [], (skipWs rest).drop 1)
      else (parseMembersLoop pv (rest.length + 1) rest).map fun p => (.obj p.1, p.2)
    else if c = '[' then
      if (skipWs rest).take 1 = [']'] then some (.arr [], (skipWs rest).drop 1)
      else (parseElemsLoop pv (rest.length + 1) rest).map fun p => (.arr p.1, p.2)
    else if c = 't' then
      if rest.take 3 = ['r', 'u', 'e'] then some (.bool true, rest.drop 3) else none
    else if c = 'f' then
      if rest.take 4 = ['a', 'l', 's', 'e'] then some (.bool false, rest.drop 4) else none
    else if c = 'n' then
      if rest.take 3 = ['u', 'l', 'l'] then some (.null, rest.drop 3) else none
    else
      (parseNumber (c :: rest)).map fun p => (.num p.1, p.2)

/-- Parse one JSON value after optional whitespace. One unit of fuel is
spent per nesting level, so fuel = input length + 1 always suffices. -/
def parseVal : Nat → List Char → Option (Json × List Char)
  | 0, _ => none
  | fuel + 1, cs => parseValCore (fun cs2 => parseVal fuel cs2) (skipWs cs)

/-- Models json.loads: parse one value and require only whitespace after
it; `none` models json.JSONDecodeError. -/
def json_loads (s : String) : Option Json :=
  (parseVal (s.data.length + 1) s.data).bind fun p =>
    if skipWs p.2 = [] then some p.1 else none

/-- Boundary condition after a printed number: the next character (if any)
must not extend the number. -/
def NumBoundary (rest : List Char) : Prop :=
  ∀ c, rest.head? = some c → isDigitCh c = false ∧ c ≠ 'e' ∧ c ≠ 'E'

/-- The denominator divides a power of ten; every Python float satisfies
this, and such rationals round-trip exactly through json. The exponent
q.den is a convenient bound for the least exponent. -/
def DecimalRepr (q : ℚ) : Prop := q.den ∣ 10 ^ q.den

/-- The values appearing in flat payload objects: strings, and numbers
whose denominator divides a power of ten. -/
def FlatVal : Json → Prop
  | .str _ => True
  | .num q => DecimalRepr q
  | _ => False

/-! ### credentials.py: payloads, store, and auth.py: token flow -/

/-- Python exceptions that the modelled code can raise. -/
inductive PyErr where
  | keyError (k : String)
  | unicodeDecodeError
  | typeMismatch
  | runtimeError (msg : String)
deriving Repr, DecidableEq

/-- Lookup in a parsed JSON object as a Python dict: a repeated key keeps
its last occurrence. -/
def dictGet (members : List (String × Json)) (k : String) : Option Json :=
  members.reverse.lookup k

/-- Embeds `CredentialRecord.to_payload` (credentials.py lines 29-31):
`asdict` in field order with `None` fields dropped. -/
def CredentialRecord.to_payload (r : CredentialRecord) : List (String × Json) :=
  [("access_token", Json.str r.access_token)]
    ++ (match r.refresh_token with
        | some v => [("refresh_token", Json.str v)]
        | none => [])
    ++ (match r.expires_at with
        | some v => [("expires_at", Json.num v)]
        | none => [])
    ++ (match r.scope with
        | some v => [("scope", Json.str v)]
        | none => [])
    ++ (match r.client_id with
        | some v => [("client_id", Json.str v)]
        | none => [])

/-- A `payload.get(k)` read of an optional string field; a JSON null reads
as absent, like Python's `None` value. A value of another JSON type would
be stored untyped by Python; the typed model reports it as a mismatch
(no payload the store itself writes hits this case). -/
def optStrField (payload : List (String × Json)) (k : String) :
    Except PyErr (Option String) :=
  match dictGet payload k with
  | none => .ok none
  | some (.str s) => .ok (some s)
  | some .null => .ok none
  | some _ => .error .typeMismatch

/-- A `payload.get(k)` read of the optional numeric `expires_at` field. -/
def optNumField (payload : List (String × Json)) (k : String) :
    Except PyErr (Option ℚ) :=
  match dictGet payload k with
  | none => .ok none
  | some (.num q) => .ok (some q)
  | some .null => .ok none
  | some _ => .error .typeMismatch

/-- Embeds `CredentialRecord.from_payload` (credentials.py lines 33-41):
`payload["access_token"]` raises KeyError when missing; the other fields
default to `None`. -/
def CredentialRecord.from_payload (payload : List (String × Json)) :
    Except PyErr CredentialRecord :=
  match dictGet payload "access_token" with
  | none => .error (.keyError "access_token")
  | some (.str a) =>
    match optStrField payload "refresh_token" with
    | .error e => .error e
    | .ok rt =>
      match optNumField payload "expires_at" with
      | .error e => .error e
      | .ok ea =>
        match optStrField payload "scope" with
        | .error e => .error e
        | .ok sc =>
          match optStrField payload "client_id" with
          | .error e => .error e
          | .ok ci => .ok ⟨a, rt, ea, sc, ci⟩
  | some _ => .error .typeMismatch

/-- The `CredentialRecord.from_payload(raw)` step of `load`, after
`json.loads`: `none` is the caught JSONDecodeError, giving `None`;
indexing a non-dict raises. -/
def loadParsed : Option Json → Except PyErr (Option CredentialRecord)
  | none => .ok none
  | some (.obj members) => (CredentialRecord.from_payload members).map some
  | some _ => .error .typeMismatch

/-- The tail of `load` after `read_bytes`: `_decode` (raising
UnicodeDecodeError on undecodable bytes), then `json.loads` with
JSONDecodeError caught, then `from_payload`. -/
def loadDecoded (x : Option String) : Except PyErr (Option CredentialRecord) :=
  match x with
  | none => .error .unicodeDecodeError
  | some text => loadParsed (json_loads text)

/-- Embeds `CredentialStore.load` (credentials.py lines 60-70). `file` is
the credential file content, `none` when the path does not exist. -/
def CredentialStore.load (passphrase : String) (file : Option (List Nat)) :
    Except PyErr (Option CredentialRecord) :=
  match file with
  | none => .ok none
  | some data => loadDecoded (CredentialStore_decode passphrase data)

/-- Embeds `CredentialStore.save` (credentials.py lines 73-76): dump the
payload with indent=2 and sorted keys, encode, write; the returned bytes
are the new file content. -/
def CredentialStore.save (passphrase : String) (r : CredentialRecord) : List Nat :=
  CredentialStore_encode passphrase (json_dumps (Json.obj r.to_payload))

/-- The parsed JSON response of the token endpoint, with the fields the
code reads, typed as the endpoint contract specifies (spec section 6):
`access_token` and the optional `refresh_token` and `scope` strings, and
the optional numeric `expires_in`. -/
structure TokenResponse where
  access_token : Option String := none
  refresh_token : Option String := none
  expires_in : Option ℚ := none
  scope : Option String := none
deriving Repr, DecidableEq

/-- Embeds the `expires_at` computation of `exchange_code` and `refresh`
(auth.py lines 117-118 and 146, 149): `time.time() + float(expires_in) if
expires_in else None`, where a missing or zero (falsy) `expires_in` gives
`None`. -/
def computeExpiresAt (expires_in : Option ℚ) (now : Time) : Option Time :=
  match expires_in with
  | some v => if v ≠ 0 then some (now + v) else none
  | none => none

/-- Embeds `AuthorizationFlow.exchange_code` (auth.py lines 103-127) from
the parsed token response on: `data["access_token"]` raises KeyError when
absent; otherwise the new record is built, saved, and returned together
with the new file content. -/
def exchange_code (client_id passphrase : String) (resp : TokenResponse) (now : Time) :
    Except PyErr (CredentialRecord × List Nat) :=
  match resp.access_token with
  | none => .error (.keyError "access_token")
  | some tok =>
    let record : CredentialRecord :=
      ⟨tok, resp.refresh_token, computeExpiresAt resp.expires_in now,
        resp.scope, some client_id⟩
    .ok (record, CredentialStore.save passphrase record)

/-- The observable outcome of one `refresh` call: the returned record or
the raised error, the number of token-endpoint POSTs performed, and the
credential file content afterwards. -/
structure RefreshOutcome where
  result : Except PyErr CredentialRecord
  networkCalls : Nat
  file : Option (List Nat)
deriving Repr

/-- Embeds `AuthorizationFlow.refresh` (auth.py lines 130-152): a falsy
(`None` or empty) `refresh_token` raises RuntimeError before any network
request and before touching the store; otherwise one POST is made and, on
a response carrying `access_token`, the record fields are updated in
place (`refresh_token`, `expires_at` and `scope` falling back as
`data.get` dictates), the record is saved and returned. -/
def AuthorizationFlow.refresh (passphrase : String) (file : Option (List Nat))
    (record : CredentialRecord) (resp : TokenResponse) (now : Time) : RefreshOutcome :=
  if falsyOptStr record.refresh_token then
    ⟨.error (.runtimeError "Refresh token missing; re-run authorization"), 0, file⟩
  else
    match resp.access_token with
    | none => ⟨.error (.keyError "access_token"), 1, file⟩
    | some tok =>
      let record' : CredentialRecord :=
        { access_token := tok
          refresh_token := match resp.refresh_token with
            | some v => some v
            | none => record.refresh_token
          expires_at := computeExpiresAt resp.expires_in now
          scope := match resp.scope with
            | some v => some v
            | none => record.scope
          client_id := record.client_id }
      ⟨.ok record', 1, some (CredentialStore.save passphrase record')⟩

/-! ## Theorems -/

/-! ## Claim theorems: scheduler, record expiry, callback handler -/

/-- C9: `CredentialRecord.is_expired` is false when `expires_at` is absent;
for present `expires_at` it is true exactly when the current time is at or
past it. -/
theorem C9_is_expired (r : CredentialRecord) (now : Time) :
    (r.expires_at = none → r.is_expired now = false) ∧
    (∀ e, r.expires_at = some e → (r.is_expired now = true ↔ e ≤ now)) := by
  constructor
  · intro h
    simp [CredentialRecord.is_expired, h]
  · intro e h
    simp [CredentialRecord.is_expired, h, ge_iff_le]

/-- C9 witness: a record expiring at time 3 is expired at time 5 and a
record with no expiry is never expired. -/
theorem C9_is_expired_witness :
    CredentialRecord.is_expired ⟨"tok", none, some 3, none, none⟩ 5 = true ∧
    CredentialRecord.is_expired ⟨"tok", none, none, none, none⟩ 5 = false := by
  constructor
  · exact (C9_is_expired ⟨"tok", none, some 3, none, none⟩ 5).2 3 rfl |>.mpr (by norm_num)
  · exact (C9_is_expired ⟨"tok", none, none, none, none⟩ 5).1 rfl

/-- C4: on each iteration the scheduler computes `target` = today (same day
as `now`) at the configured hour:minute; whenever that target is not
strictly in the future it is advanced to the next calendar day at the same
hour:minute; in particular with now = day 0 at 14:00 and configured target
09:00 the computed next fire is day 1 (tomorrow) at 09:00. -/
theorem C4_scheduler_target (now : PyDateTime) (h m : Nat) :
    (PyDateTime.toMicros { now with hour := h, minute := m, second := 0, microsecond := 0 }
        ≤ now.toMicros →
      computeTarget now h m =
        { day := now.day + 1, hour := h, minute := m, second := 0, microsecond := 0 }) ∧
    (now.toMicros < PyDateTime.toMicros
        { now with hour := h, minute := m, second := 0, microsecond := 0 } →
      computeTarget now h m =
        { day := now.day, hour := h, minute := m, second := 0, microsecond := 0 }) ∧
    computeTarget ⟨0, 14, 0, 0, 0⟩ 9 0 = ⟨1, 9, 0, 0, 0⟩ := by
  refine ⟨?_, ?_, by decide⟩
  · intro hle
    simp only [computeTarget, if_pos hle]
  · intro hlt
    simp only [computeTarget, if_neg (not_le.mpr hlt)]

/-- C4 witness: with now = day 0 at 14:00 and configured 09:00, the target
09:00 today is not in the future and the computed fire time is tomorrow at
09:00. -/
theorem C4_scheduler_target_witness :
    computeTarget ⟨0, 14, 0, 0, 0⟩ 9 0 = ⟨1, 9, 0, 0, 0⟩ :=
  (C4_scheduler_target ⟨0, 14, 0, 0, 0⟩ 9 0).1 (by decide)

/-- C5: in every fire cycle, a job that completes sets `last_run` to the
current time and persists the new state; a job that raises leaves both the
in-memory state and the persisted file unchanged, and the loop continues:
a failing cycle at the head of the cycle list leaves the remaining cycles
to run exactly as they would have. -/
theorem C5_job_failure_not_fatal (st : ScheduleState) (file : Option ScheduleState)
    (now : Time) (rest : List (Bool × Time)) :
    fireCycle st file true now =
      ({ st with last_run := some now }, some { st with last_run := some now }) ∧
    fireCycle st file false now = (st, file) ∧
    runCycles st file ((false, now) :: rest) = runCycles st file rest := by
  refine ⟨rfl, rfl, ?_⟩
  simp [runCycles, fireCycle]

/-- C1 counterexample: with expected state "S", a first request on a wrong
path consumes the single `handle_request` call, so a later valid request
does not complete the wait; and even a valid FIRST request — which reaches
the 200 branch of `do_GET` and sets the event — does not complete the
wait, because the result it records lives on the handler instance while
the wait reads the never-assigned class attribute. The call raises
`TimeoutError` in both runs. -/
theorem C1_counterexample :
    wait_for_callback "S"
        [(⟨"/favicon.ico", []⟩, 1), (⟨"/callback", [("code", "C"), ("state", "S")]⟩, 2)]
      = .error .timeout ∧
    wait_for_callback "S" [(⟨"/callback", [("code", "C"), ("state", "S")]⟩, 2)]
      = .error .timeout ∧
    (do_GET (some "S") true 2 ⟨"/callback", [("code", "C"), ("state", "S")]⟩).status
      = 200 ∧
    (do_GET (some "S") true 2 ⟨"/callback", [("code", "C"), ("state", "S")]⟩).eventSet
      = true := by
  refine ⟨rfl, rfl, rfl, rfl⟩

/-- C1 (actual behavior): the listener serves at most one request — the
outcome of the wait never depends on arrivals after the first — and
`wait_for_callback` raises `TimeoutError` for every state and every
arrival sequence, valid first request included: `do_GET` assigns
`self.result` on the per-request handler instance, `wait_for_callback`
reads the `CallbackHandler.result` class attribute, which nothing ever
sets, so the success path of the wait (auth.py lines 99-100) is
unreachable. -/
theorem C1_one_request (s : String) (arrivals : List (CallbackRequest × Time)) :
    wait_for_callback s arrivals = .error .timeout ∧
    (∀ req t rest rest',
      wait_for_callback s ((req, t) :: rest) = wait_for_callback s ((req, t) :: rest')) := by
  refine ⟨?_, fun req t rest rest' => rfl⟩
  cases arrivals with
  | nil => rfl
  | cons a rest =>
    rcases a with ⟨req, t⟩
    simp [wait_for_callback]

/-- A successful parameter lookup comes from a member of the parsed query
list. -/
theorem paramGet_mem : ∀ {params : List (String × String)} {k v : String},
    paramGet params k = some v → (k, v) ∈ params := by
  intro params
  induction params with
  | nil => intro k v h; simp [paramGet] at h
  | cons p rest ih =>
    intro k v h
    rw [paramGet, List.lookup] at h
    split at h
    · rename_i heq
      rw [beq_iff_eq] at heq
      cases h
      subst heq
      exact List.mem_cons_self _ _
    · exact List.mem_cons_of_mem _ (ih h)

/-- Present query parameters are never Python-falsy, because `parse_qs`
drops blank values. -/
theorem paramGet_not_falsy {params : List (String × String)} {k v : String}
    (hreq : ∀ kv ∈ params, kv.2 ≠ "") (h : paramGet params k = some v) :
    falsyOptStr (some v) = false := by
  have hv : v ≠ "" := hreq (k, v) (paramGet_mem h)
  simp [falsyOptStr, hv]

/-- C6: with a nonempty expected state configured (as `wait_for_callback`
always does) and query parameters as `parse_qs` produces them, each
incoming GET is dispatched as: wrong path gives 404; a missing `code` or
`state` parameter gives 400; a state differing from the expected state
gives 401 without signalling; a matching state records the code, the
state and the current time, signals completion and responds 200. -/
theorem C6_do_GET_dispatch (es : String) (hes : es ≠ "") (now : Time)
    (req : CallbackRequest) (hreq : ∀ kv ∈ req.params, kv.2 ≠ "") :
    (req.path ≠ "/callback" → do_GET (some es) true now req = ⟨404, none, false⟩) ∧
    (req.path = "/callback" →
      (paramGet req.params "code" = none ∨ paramGet req.params "state" = none) →
      do_GET (some es) true now req = ⟨400, none, false⟩) ∧
    (∀ c st, req.path = "/callback" → paramGet req.params "code" = some c →
      paramGet req.params "state" = some st → st ≠ es →
      do_GET (some es) true now req = ⟨401, none, false⟩) ∧
    (∀ c, req.path = "/callback" → paramGet req.params "code" = some c →
      paramGet req.params "state" = some es →
      do_GET (some es) true now req = ⟨200, some ⟨c, es, now⟩, true⟩) := by
  refine ⟨?_, ?_, ?_, ?_⟩
  · intro h
    simp [do_GET, h]
  · intro hp h
    rcases h with h | h <;> simp [do_GET, hp, h, falsyOptStr]
  · intro c st hp hc hst hne
    have hcn : c ≠ "" := hreq (_, _) (paramGet_mem hc)
    have hstn : st ≠ "" := hreq (_, _) (paramGet_mem hst)
    simp [do_GET, hp, hc, hst, hcn, hstn, falsyOptStr, hes, hne]
  · intro c hp hc hst
    have hcn : c ≠ "" := hreq (_, _) (paramGet_mem hc)
    simp [do_GET, hp, hc, hst, hcn, falsyOptStr, hes]

/-- C6 witness: with expected state "S", a request with state "T" gets 401
and a request with state "S" gets 200 with the recorded result. -/
theorem C6_do_GET_dispatch_witness :
    do_GET (some "S") true 7 ⟨"/callback", [("code", "C"), ("state", "T")]⟩
      = ⟨401, none, false⟩ ∧
    do_GET (some "S") true 7 ⟨"/callback", [("code", "C"), ("state", "S")]⟩
      = ⟨200, some ⟨"C", "S", 7⟩, true⟩ := by
  constructor
  · exact (C6_do_GET_dispatch "S" (by decide) 7
      ⟨"/callback", [("code", "C"), ("state", "T")]⟩ (by decide)).2.2.1
      "C" "T" rfl rfl rfl (by decide)
  · exact (C6_do_GET_dispatch "S" (by decide) 7
      ⟨"/callback", [("code", "C"), ("state", "S")]⟩ (by decide)).2.2.2
      "C" rfl rfl rfl

/-- C10: when the handler's expected state is unset or the empty string the
state-mismatch check is skipped, so a GET to /callback carrying a code and
any state value is accepted: 200 is sent, the result recorded and the
event signalled. -/
theorem C10_falsy_expected_state (es : Option String) (req : CallbackRequest)
    (now : Time) (hes : falsyOptStr es = true) (c st : String)
    (hc : paramGet req.params "code" = some c) (hcn : c ≠ "")
    (hst : paramGet req.params "state" = some st) (hstn : st ≠ "")
    (hp : req.path = "/callback") :
    do_GET es true now req = ⟨200, some ⟨c, st, now⟩, true⟩ := by
  cases es with
  | none => simp [do_GET, hp, hc, hst, falsyOptStr, hcn, hstn]
  | some s =>
    have hs : s = "" := by simpa [falsyOptStr] using hes
    subst hs
    simp [do_GET, hp, hc, hst, falsyOptStr, hcn, hstn]

/-- C10 witness: with no expected state configured, a request carrying
state "anything" is accepted with 200 and the event set. -/
theorem C10_falsy_expected_state_witness :
    do_GET none true 3 ⟨"/callback", [("code", "C"), ("state", "anything")]⟩
      = ⟨200, some ⟨"C", "anything", 3⟩, true⟩ :=
  C10_falsy_expected_state none ⟨"/callback", [("code", "C"), ("state", "anything")]⟩
    3 rfl "C" "anything" rfl (by decide) rfl (by decide) rfl

theorem toBytesBE_length (k n : Nat) : (toBytesBE k n).length = k := by
  simp [toBytesBE]

/-- Every SHA-256 digest has 32 bytes. -/
theorem sha256_length (msg : List Nat) : (sha256 msg).length = 32 := by
  simp [sha256, toBytesBE_length]

theorem deriveKeyLoop_length (b : Nat) (digest : List Nat) (hd : digest.length = 32) :
    (deriveKeyLoop digest b).length = 32 * b := by
  induction b generalizing digest with
  | zero => rfl
  | succ n ih =>
    rw [deriveKeyLoop, List.length_append, hd, ih (sha256 digest) (sha256_length _)]
    ring

/-- The derived keystream has exactly the requested length. -/
theorem derive_key_length (p : String) (size : Nat) :
    (derive_key p size).length = size := by
  rw [derive_key, List.length_take,
    deriveKeyLoop_length _ _ (sha256_length (strToUtf8 p))]
  omega

theorem zipWith_xor_cancel : ∀ (b k : List Nat), b.length ≤ k.length →
    List.zipWith Nat.xor (List.zipWith Nat.xor b k) k = b := by
  intro b
  induction b with
  | nil => intro k _; simp
  | cons x xs ih =>
    intro k hk
    cases k with
    | nil => simp at hk
    | cons y ys =>
      simp only [List.zipWith_cons_cons, List.cons.injEq]
      exact ⟨Nat.xor_cancel_right y x, ih ys (by simpa using hk)⟩

/-- Masking is an involution: applying the keystream XOR twice with the
same passphrase restores the payload. -/
theorem maskBytes_involutive (p : String) (m : List Nat) :
    maskBytes p (maskBytes p m) = m := by
  by_cases hp : p = ""
  · simp [maskBytes, hp]
  · have hlen : (List.zipWith Nat.xor m (derive_key p m.length)).length = m.length := by
      rw [List.length_zipWith, derive_key_length]
      omega
    simp only [maskBytes, if_neg hp, hlen]
    exact zipWith_xor_cancel m _ (by rw [derive_key_length])

/-- C3: masking is an involution — decoding the encoding of any byte
payload with the same passphrase gives the payload back — and with the
empty passphrase the encoding applies no masking at all. -/
theorem C3_mask_roundtrip (p : String) (m : List Nat) :
    maskBytes p (maskBytes p m) = m ∧ maskBytes "" m = m :=
  ⟨maskBytes_involutive p m, by simp [maskBytes]⟩

theorem utf8DecodeF_nil (fuel : Nat) : utf8DecodeF fuel [] = some [] := by
  cases fuel <;> rfl

theorem utf8DecodeF_cons (fuel b : Nat) (rest : List Nat) :
    utf8DecodeF (fuel + 1) (b :: rest) =
    (if b < 0x80 then
      (utf8DecodeF fuel rest).map (b :: ·)
    else if b < 0xC2 then none
    else if b < 0xE0 then
      match rest with
      | c1 :: rest1 =>
        if 0x80 ≤ c1 ∧ c1 < 0xC0 then
          (utf8DecodeF fuel rest1).map (((b - 0xC0) * 64 + (c1 - 0x80)) :: ·)
        else none
      | [] => none
    else if b < 0xF0 then
      match rest with
      | c1 :: c2 :: rest2 =>
        if (0x80 ≤ c1 ∧ c1 < 0xC0) ∧ (0x80 ≤ c2 ∧ c2 < 0xC0) then
          if 0x800 ≤ (b - 0xE0) * 4096 + (c1 - 0x80) * 64 + (c2 - 0x80) ∧
              ¬(0xD800 ≤ (b - 0xE0) * 4096 + (c1 - 0x80) * 64 + (c2 - 0x80) ∧
                (b - 0xE0) * 4096 + (c1 - 0x80) * 64 + (c2 - 0x80) < 0xE000) then
            (utf8DecodeF fuel rest2).map
              (((b - 0xE0) * 4096 + (c1 - 0x80) * 64 + (c2 - 0x80)) :: ·)
          else none
        else none
      | _ => none
    else if b < 0xF5 then
      match rest with
      | c1 :: c2 :: c3 :: rest3 =>
        if (0x80 ≤ c1 ∧ c1 < 0xC0) ∧ (0x80 ≤ c2 ∧ c2 < 0xC0) ∧ (0x80 ≤ c3 ∧ c3 < 0xC0) then
          if 0x10000 ≤ (b - 0xF0) * 262144 + (c1 - 0x80) * 4096 + (c2 - 0x80) * 64 + (c3 - 0x80) ∧
              (b - 0xF0) * 262144 + (c1 - 0x80) * 4096 + (c2 - 0x80) * 64 + (c3 - 0x80) < 0x110000 then
            (utf8DecodeF fuel rest3).map
              (((b - 0xF0) * 262144 + (c1 - 0x80) * 4096 + (c2 - 0x80) * 64 + (c3 - 0x80)) :: ·)
          else none
        else none
      | _ => none
    else none) := rfl

theorem utf8DecodeF_one (fuel b : Nat) (rest : List Nat) (h : b < 0x80) :
    utf8DecodeF (fuel + 1) (b :: rest) = (utf8DecodeF fuel rest).map (b :: ·) := by
  rw [utf8DecodeF_cons, if_pos h]

theorem utf8DecodeF_two (fuel b c1 : Nat) (rest : List Nat)
    (h1 : ¬b < 0x80) (h2 : ¬b < 0xC2) (h3 : b < 0xE0) :
    utf8DecodeF (fuel + 1) (b :: c1 :: rest) =
      (if 0x80 ≤ c1 ∧ c1 < 0xC0 then
        (utf8DecodeF fuel rest).map (((b - 0xC0) * 64 + (c1 - 0x80)) :: ·)
      else none) := by
  rw [utf8DecodeF_cons, if_neg h1, if_neg h2, if_pos h3]

theorem utf8DecodeF_three (fuel b c1 c2 : Nat) (rest : List Nat)
    (h1 : ¬b < 0x80) (h2 : ¬b < 0xC2) (h3 : ¬b < 0xE0) (h4 : b < 0xF0) :
    utf8DecodeF (fuel + 1) (b :: c1 :: c2 :: rest) =
      (if (0x80 ≤ c1 ∧ c1 < 0xC0) ∧ (0x80 ≤ c2 ∧ c2 < 0xC0) then
        if 0x800 ≤ (b - 0xE0) * 4096 + (c1 - 0x80) * 64 + (c2 - 0x80) ∧
            ¬(0xD800 ≤ (b - 0xE0) * 4096 + (c1 - 0x80) * 64 + (c2 - 0x80) ∧
              (b - 0xE0) * 4096 + (c1 - 0x80) * 64 + (c2 - 0x80) < 0xE000) then
          (utf8DecodeF fuel rest).map
            (((b - 0xE0) * 4096 + (c1 - 0x80) * 64 + (c2 - 0x80)) :: ·)
        else none
      else none) := by
  rw [utf8DecodeF_cons, if_neg h1, if_neg h2, if_neg h3, if_pos h4]

theorem utf8DecodeF_four (fuel b c1 c2 c3 : Nat) (rest : List Nat)
    (h1 : ¬b < 0x80) (h2 : ¬b < 0xC2) (h3 : ¬b < 0xE0) (h4 : ¬b < 0xF0) (h5 : b < 0xF5) :
    utf8DecodeF (fuel + 1) (b :: c1 :: c2 :: c3 :: rest) =
      (if (0x80 ≤ c1 ∧ c1 < 0xC0) ∧ (0x80 ≤ c2 ∧ c2 < 0xC0) ∧ (0x80 ≤ c3 ∧ c3 < 0xC0) then
        if 0x10000 ≤ (b - 0xF0) * 262144 + (c1 - 0x80) * 4096 + (c2 - 0x80) * 64 + (c3 - 0x80) ∧
            (b - 0xF0) * 262144 + (c1 - 0x80) * 4096 + (c2 - 0x80) * 64 + (c3 - 0x80) < 0x110000 then
          (utf8DecodeF fuel rest).map
            (((b - 0xF0) * 262144 + (c1 - 0x80) * 4096 + (c2 - 0x80) * 64 + (c3 - 0x80)) :: ·)
        else none
      else none) := by
  rw [utf8DecodeF_cons, if_neg h1, if_neg h2, if_neg h3, if_neg h4, if_pos h5]

/-- Decoding inverts the one-character encoder for every valid scalar
value, prefix by prefix, spending one unit of fuel. -/
theorem utf8DecodeF_encodeChar (c : Nat) (hv : Nat.isValidChar c) (rest : List Nat)
    (fuel : Nat) :
    utf8DecodeF (fuel + 1) (encodeChar c ++ rest) = (utf8DecodeF fuel rest).map (c :: ·) := by
  have hcs : c < 0xD800 ∨ (0xDFFF < c ∧ c < 0x110000) := hv
  by_cases h1 : c < 0x80
  · simp only [encodeChar]
    rw [if_pos h1, List.cons_append, List.nil_append, utf8DecodeF_one _ _ _ h1]
  · by_cases h2 : c < 0x800
    · simp only [encodeChar]
      rw [if_neg h1, if_pos h2, List.cons_append, List.cons_append, List.nil_append,
        utf8DecodeF_two _ _ _ _ (by omega) (by omega) (by omega), if_pos (by omega)]
      have he : (0xC0 + c / 64 - 0xC0) * 64 + (0x80 + c % 64 - 0x80) = c := by omega
      rw [he]
    · by_cases h3 : c < 0x10000
      · simp only [encodeChar]
        rw [if_neg h1, if_neg h2, if_pos h3, List.cons_append, List.cons_append,
          List.cons_append, List.nil_append,
          utf8DecodeF_three _ _ _ _ _ (by omega) (by omega) (by omega) (by omega),
          if_pos (by omega)]
        have he : (0xE0 + c / 4096 - 0xE0) * 4096 + (0x80 + c / 64 % 64 - 0x80) * 64
            + (0x80 + c % 64 - 0x80) = c := by omega
        rw [he, if_pos (by omega)]
      · simp only [encodeChar]
        rw [if_neg h1, if_neg h2, if_neg h3, List.cons_append, List.cons_append,
          List.cons_append, List.cons_append, List.nil_append,
          utf8DecodeF_four _ _ _ _ _ _ (by omega) (by omega) (by omega) (by omega) (by omega),
          if_pos (by omega)]
        have he : (0xF0 + c / 262144 - 0xF0) * 262144 + (0x80 + c / 4096 % 64 - 0x80) * 4096
            + (0x80 + c / 64 % 64 - 0x80) * 64 + (0x80 + c % 64 - 0x80) = c := by omega
        rw [he, if_pos (by omega)]

/-- Decoding inverts encoding on every list of valid scalar values, for
any fuel at least the number of characters. -/
theorem utf8DecodeF_encodeList : ∀ (cps : List Nat) (fuel : Nat), cps.length ≤ fuel →
    (∀ c ∈ cps, Nat.isValidChar c) →
    utf8DecodeF fuel (cps.flatMap encodeChar) = some cps := by
  intro cps
  induction cps with
  | nil => intro fuel _ _; simpa using utf8DecodeF_nil fuel
  | cons c cs ih =>
    intro fuel hf hv
    match fuel with
    | 0 => exact absurd hf (by simp)
    | f + 1 =>
      rw [List.flatMap_cons, utf8DecodeF_encodeChar c (hv c (List.mem_cons_self c cs)),
        ih f (by simpa using Nat.lt_succ_iff.mp (Nat.lt_of_lt_of_le (Nat.lt_succ_self _) hf))
          fun x hx => hv x (List.mem_cons_of_mem c hx)]
      rfl

theorem encodeChar_length_pos (c : Nat) : 0 < (encodeChar c).length := by
  rw [encodeChar]
  split
  · simp
  · split
    · simp
    · split <;> simp

theorem length_le_flatMap_encodeChar (cps : List Nat) :
    cps.length ≤ (cps.flatMap encodeChar).length := by
  induction cps with
  | nil => simp
  | cons c cs ih =>
    rw [List.flatMap_cons, List.length_append, List.length_cons]
    have := encodeChar_length_pos c
    omega

/-- Decoding inverts encoding on every list of valid scalar values. -/
theorem utf8Decode_encodeList (cps : List Nat) (hv : ∀ c ∈ cps, Nat.isValidChar c) :
    utf8Decode (cps.flatMap encodeChar) = some cps :=
  utf8DecodeF_encodeList cps _ (length_le_flatMap_encodeChar cps) hv

/-- Decoding the UTF-8 encoding of any string gives the string back. -/
theorem utf8ToStr_strToUtf8 (s : String) : utf8ToStr (strToUtf8 s) = some s := by
  rw [utf8ToStr, strToUtf8,
    utf8Decode_encodeList _ (by
      intro c hcm
      rcases List.mem_map.mp hcm with ⟨ch, _, hch⟩
      exact hch ▸ ch.valid)]
  simp only [Option.map_some']
  have hmap : (s.data.map Char.toNat).map Char.ofNat = s.data := by
    rw [List.map_map]
    conv_rhs => rw [← List.map_id s.data]
    exact List.map_congr_left fun ch _ => Char.ofNat_toNat ch
  rw [hmap]

/-- The string-level encode/decode roundtrip of the credential store. -/
theorem store_decode_encode (p t : String) :
    CredentialStore_decode p (CredentialStore_encode p t) = some t := by
  rw [CredentialStore_decode, CredentialStore_encode,
    maskBytes_involutive p (strToUtf8 t), utf8ToStr_strToUtf8]

/-! ### Roundtrip: JSON string literals -/

theorem toNat_ofNat_valid (n : Nat) (h : n.isValidChar) : (Char.ofNat n).toNat = n := by
  simp only [Char.ofNat, h, dif_pos]
  rfl

theorem hexVal_hexDigitChar : ∀ d : Nat, d < 16 → hexVal (hexDigitChar d) = some d := by
  decide

theorem parseHex4_cons4 (a b c d : Char) (rest : List Char) :
    parseHex4 (a :: b :: c :: d :: rest) =
      (match hexVal a, hexVal b, hexVal c, hexVal d with
      | some x, some y, some z, some w => some (((x * 16 + y) * 16 + z) * 16 + w, rest)
      | _, _, _, _ => none) := rfl

theorem parseHex4_digits (n : Nat) (h : n < 0x10000) (tail : List Char) :
    parseHex4 (hexDigitChar (n / 4096 % 16) :: hexDigitChar (n / 256 % 16)
      :: hexDigitChar (n / 16 % 16) :: hexDigitChar (n % 16) :: tail) = some (n, tail) := by
  rw [parseHex4_cons4, hexVal_hexDigitChar _ (by omega), hexVal_hexDigitChar _ (by omega),
    hexVal_hexDigitChar _ (by omega), hexVal_hexDigitChar _ (by omega)]
  show some (((n / 4096 % 16 * 16 + n / 256 % 16) * 16 + n / 16 % 16) * 16 + n % 16, tail)
    = some (n, tail)
  rw [show ((n / 4096 % 16 * 16 + n / 256 % 16) * 16 + n / 16 % 16) * 16 + n % 16 = n by omega]

theorem parseJStringBody_succ_cons (fuel : Nat) (c : Char) (rest : List Char) :
    parseJStringBody (fuel + 1) (c :: rest) =
    (if c = '"' then some ([], rest)
    else if c = '\\' then
      (parseEscape rest).bind fun cr =>
        (parseJStringBody fuel cr.2).map fun p => (cr.1 :: p.1, p.2)
    else if c.toNat < 0x20 then none
    else (parseJStringBody fuel rest).map fun p => (c :: p.1, p.2)) := rfl

theorem parseEscape_cons (e : Char) (rest1 : List Char) :
    parseEscape (e :: rest1) =
    (if e = 'u' then
      (parseHex4 rest1).bind fun nr =>
        if 0xD800 ≤ nr.1 ∧ nr.1 < 0xDC00 then
          if nr.2.take 2 = ['\\', 'u'] then
            (parseHex4 (nr.2.drop 2)).bind fun mr =>
              if 0xDC00 ≤ mr.1 ∧ mr.1 < 0xE000 then
                some (Char.ofNat (0x10000 + (nr.1 - 0xD800) * 1024 + (mr.1 - 0xDC00)), mr.2)
              else none
          else none
        else if 0xDC00 ≤ nr.1 ∧ nr.1 < 0xE000 then none
        else some (Char.ofNat nr.1, nr.2)
    else
      (shortEscape e).map fun ch => (ch, rest1)) := rfl

/-- Reading a \uXXXX escape for a non-surrogate code unit. -/
theorem parseEscape_u (n : Nat) (hn : n < 0x10000)
    (hno : ¬(0xD800 ≤ n ∧ n < 0xDC00)) (hno2 : ¬(0xDC00 ≤ n ∧ n < 0xE000))
    (tail : List Char) :
    parseEscape ('u' :: hexDigitChar (n / 4096 % 16) :: hexDigitChar (n / 256 % 16)
      :: hexDigitChar (n / 16 % 16) :: hexDigitChar (n % 16) :: tail)
      = some (Char.ofNat n, tail) := by
  rw [parseEscape_cons, if_pos rfl, parseHex4_digits _ hn, Option.some_bind]
  show (if 0xD800 ≤ n ∧ n < 0xDC00 then _ else
    if 0xDC00 ≤ n ∧ n < 0xE000 then none else some (Char.ofNat n, tail))
    = some (Char.ofNat n, tail)
  rw [if_neg hno, if_neg hno2]

theorem take_two_cons {a b : Char} {l : List Char} : (a :: b :: l).take 2 = [a, b] := rfl

theorem drop_two_cons {a b : Char} {l : List Char} : (a :: b :: l).drop 2 = l := rfl

/-- Reading a surrogate-pair escape for an astral code point. -/
theorem parseEscape_pair (n : Nat) (h1 : 0x10000 ≤ n) (h2 : n < 0x110000)
    (tail : List Char) :
    parseEscape ('u' :: hexDigitChar ((0xD800 + (n - 0x10000) / 1024) / 4096 % 16)
      :: hexDigitChar ((0xD800 + (n - 0x10000) / 1024) / 256 % 16)
      :: hexDigitChar ((0xD800 + (n - 0x10000) / 1024) / 16 % 16)
      :: hexDigitChar ((0xD800 + (n - 0x10000) / 1024) % 16)
      :: '\\' :: 'u' :: hexDigitChar ((0xDC00 + (n - 0x10000) % 1024) / 4096 % 16)
      :: hexDigitChar ((0xDC00 + (n - 0x10000) % 1024) / 256 % 16)
      :: hexDigitChar ((0xDC00 + (n - 0x10000) % 1024) / 16 % 16)
      :: hexDigitChar ((0xDC00 + (n - 0x10000) % 1024) % 16) :: tail)
      = some (Char.ofNat n, tail) := by
  have hmod := Nat.mod_lt (n - 0x10000) (show 0 < 1024 by omega)
  rw [parseEscape_cons, if_pos rfl, parseHex4_digits _ (by omega), Option.some_bind]
  show (if 0xD800 ≤ 0xD800 + (n - 0x10000) / 1024 ∧ 0xD800 + (n - 0x10000) / 1024 < 0xDC00 then
      if (('\\' :: 'u' :: hexDigitChar ((0xDC00 + (n - 0x10000) % 1024) / 4096 % 16)
        :: hexDigitChar ((0xDC00 + (n - 0x10000) % 1024) / 256 % 16)
        :: hexDigitChar ((0xDC00 + (n - 0x10000) % 1024) / 16 % 16)
        :: hexDigitChar ((0xDC00 + (n - 0x10000) % 1024) % 16) :: tail).take 2 = ['\\', 'u']) then
        (parseHex4 (('\\' :: 'u' :: hexDigitChar ((0xDC00 + (n - 0x10000) % 1024) / 4096 % 16)
          :: hexDigitChar ((0xDC00 + (n - 0x10000) % 1024) / 256 % 16)
          :: hexDigitChar ((0xDC00 + (n - 0x10000) % 1024) / 16 % 16)
          :: hexDigitChar ((0xDC00 + (n - 0x10000) % 1024) % 16) :: tail).drop 2)).bind fun mr =>
          if 0xDC00 ≤ mr.1 ∧ mr.1 < 0xE000 then
            some (Char.ofNat (0x10000 + (0xD800 + (n - 0x10000) / 1024 - 0xD800) * 1024
              + (mr.1 - 0xDC00)), mr.2)
          else none
      else none
    else _)
    = some (Char.ofNat n, tail)
  rw [if_pos (by constructor <;> omega)]
  simp only [take_two_cons, drop_two_cons]
  rw [if_pos trivial, parseHex4_digits _ (by omega), Option.some_bind]
  show (if 0xDC00 ≤ 0xDC00 + (n - 0x10000) % 1024 ∧ 0xDC00 + (n - 0x10000) % 1024 < 0xE000 then
      some (Char.ofNat (0x10000 + (0xD800 + (n - 0x10000) / 1024 - 0xD800) * 1024
        + (0xDC00 + (n - 0x10000) % 1024 - 0xDC00)), tail)
    else none) = some (Char.ofNat n, tail)
  rw [if_pos (by constructor <;> omega)]
  have he : 0x10000 + (0xD800 + (n - 0x10000) / 1024 - 0xD800) * 1024
      + (0xDC00 + (n - 0x10000) % 1024 - 0xDC00) = n := by
    have := Nat.div_add_mod (n - 0x10000) 1024
    omega
  rw [he]

/-- Parsing undoes the escaping of one character, spending one unit of
fuel. -/
theorem parseJStringBody_escape (fuel : Nat) (c : Char) (tail : List Char) :
    parseJStringBody (fuel + 1) (escapeChar c ++ tail) =
      (parseJStringBody fuel tail).map fun p => (c :: p.1, p.2) := by
  rw [escapeChar]
  by_cases h1 : c = '"'
  · rw [if_pos h1, h1]
    rfl
  rw [if_neg h1]
  by_cases h2 : c = '\\'
  · rw [if_pos h2, h2]
    rfl
  rw [if_neg h2]
  by_cases h3 : c = '\n'
  · rw [if_pos h3, h3]
    rfl
  rw [if_neg h3]
  by_cases h4 : c = '\r'
  · rw [if_pos h4, h4]
    rfl
  rw [if_neg h4]
  by_cases h5 : c = '\t'
  · rw [if_pos h5, h5]
    rfl
  rw [if_neg h5]
  by_cases h6 : c.toNat = 8
  · rw [if_pos h6]
    have hc : c = Char.ofNat 8 := by
      rw [← h6, Char.ofNat_toNat]
    rw [hc]
    rfl
  rw [if_neg h6]
  by_cases h7 : c.toNat = 12
  · rw [if_pos h7]
    have hc : c = Char.ofNat 12 := by
      rw [← h7, Char.ofNat_toNat]
    rw [hc]
    rfl
  rw [if_neg h7]
  by_cases h8 : 0x20 ≤ c.toNat ∧ c.toNat < 0x7F
  · rw [if_pos h8, List.cons_append, List.nil_append, parseJStringBody_succ_cons,
      if_neg h1, if_neg h2, if_neg (by omega)]
  rw [if_neg h8]
  have hv : c.toNat < 0xD800 ∨ (0xDFFF < c.toNat ∧ c.toNat < 0x110000) := c.valid
  by_cases h9 : c.toNat < 0x10000
  · rw [if_pos h9, uEscape]
    simp only [List.cons_append, List.nil_append]
    rw [parseJStringBody_succ_cons, if_neg (by decide), if_pos rfl,
      parseEscape_u c.toNat h9 (by rcases hv with h | h <;> omega)
        (by rcases hv with h | h <;> omega) tail,
      Option.some_bind, Char.ofNat_toNat]
  · rw [if_neg h9, uEscape, uEscape]
    simp only [List.cons_append, List.nil_append, List.append_assoc]
    have hc17 : c.toNat < 0x110000 := by
      rcases hv with h | h <;> omega
    rw [parseJStringBody_succ_cons, if_neg (by decide), if_pos rfl,
      parseEscape_pair c.toNat (by omega) hc17 tail, Option.some_bind, Char.ofNat_toNat]

/-- Parsing a printed string body gives back the characters and the rest
of the input, for fuel at least the character count plus one. -/
theorem parseJStringBody_print : ∀ (cs : List Char) (rest : List Char) (fuel : Nat),
    cs.length + 1 ≤ fuel →
    parseJStringBody fuel (cs.flatMap escapeChar ++ '"' :: rest) = some (cs, rest) := by
  intro cs
  induction cs with
  | nil =>
    intro rest fuel hf
    cases fuel with
    | zero => exact absurd hf (by simp)
    | succ f =>
      rw [List.flatMap_nil, List.nil_append, parseJStringBody_succ_cons, if_pos rfl]
  | cons c cs ih =>
    intro rest fuel hf
    cases fuel with
    | zero => exact absurd hf (by simp)
    | succ f =>
      rw [List.flatMap_cons, List.append_assoc, parseJStringBody_escape,
        ih rest f (by simp only [List.length_cons] at hf; omega)]
      rfl

/-! ### Roundtrip: JSON numbers -/

theorem toNat_digitChar (d : Nat) (h : d < 10) : (Char.ofNat (48 + d)).toNat = 48 + d :=
  toNat_ofNat_valid _ (Or.inl (by omega))

theorem isDigitCh_digitChar (d : Nat) (h : d < 10) :
    isDigitCh (Char.ofNat (48 + d)) = true := by
  rw [isDigitCh, toNat_digitChar d h]
  simp only [Bool.and_eq_true, decide_eq_true_eq]
  omega

theorem natDigits_all_digit (n : Nat) : ∀ ch ∈ natDigits n, isDigitCh ch = true := by
  intro ch hch
  rw [natDigits] at hch
  split at hch
  · simp only [List.mem_singleton] at hch
    subst hch
    decide
  · rcases List.mem_map.mp hch with ⟨d, hd, rfl⟩
    exact isDigitCh_digitChar d (Nat.digits_lt_base (by norm_num) (List.mem_reverse.mp hd))

theorem foldl_digit_shift (b : List Char) (A : Nat) :
    List.foldl (fun a c => a * 10 + (c.toNat - 48)) A b
      = A * 10 ^ b.length + digitsToNat b := by
  induction b generalizing A with
  | nil => simp [digitsToNat]
  | cons c t ih =>
    have hd : digitsToNat (c :: t) = (c.toNat - 48) * 10 ^ t.length + digitsToNat t := by
      rw [digitsToNat, List.foldl_cons, ih]
      norm_num
    rw [List.foldl_cons, ih, hd, List.length_cons, pow_succ]
    ring

theorem digitsToNat_append (a b : List Char) :
    digitsToNat (a ++ b) = digitsToNat a * 10 ^ b.length + digitsToNat b := by
  rw [digitsToNat, List.foldl_append, ← digitsToNat, foldl_digit_shift]

theorem digitsToNat_replicate_zeros (z : Nat) (ds : List Char) :
    digitsToNat (List.replicate z '0' ++ ds) = digitsToNat ds := by
  rw [digitsToNat_append]
  have hz : digitsToNat (List.replicate z '0') = 0 := by
    induction z with
    | zero => rfl
    | succ s ih =>
      rw [List.replicate_succ, digitsToNat, List.foldl_cons]
      simpa [digitsToNat] using ih
  rw [hz]
  ring

theorem foldl_rev_digits (ds : List Nat) (h : ∀ d ∈ ds, d < 10) :
    digitsToNat ((ds.reverse).map fun d => Char.ofNat (48 + d)) = Nat.ofDigits 10 ds := by
  induction ds with
  | nil => simp [digitsToNat, Nat.ofDigits_nil]
  | cons d t ih =>
    rw [List.reverse_cons, List.map_append, digitsToNat_append, List.map_cons, List.map_nil,
      List.length_cons, List.length_nil]
    have h1 : digitsToNat [Char.ofNat (48 + d)] = d := by
      rw [digitsToNat, List.foldl_cons, toNat_digitChar d (h d (List.mem_cons_self d t))]
      simp [digitsToNat]
    rw [h1, ih fun x hx => h x (List.mem_cons_of_mem d hx), Nat.ofDigits_cons]
    push_cast
    ring

theorem digitsToNat_natDigits (n : Nat) : digitsToNat (natDigits n) = n := by
  rw [natDigits]
  split
  · rename_i h0
    subst h0
    decide
  · rw [foldl_rev_digits _ fun d hd => Nat.digits_lt_base (by norm_num) hd,
      Nat.ofDigits_digits]

theorem natDigits_length_le (n w : Nat) (h : n < 10 ^ w) (hw : 1 ≤ w) :
    (natDigits n).length ≤ w := by
  rw [natDigits]
  split
  · simpa using hw
  · rename_i hn
    rw [List.length_map, List.length_reverse, Nat.digits_len 10 n (by norm_num) hn]
    have := (Nat.lt_pow_iff_log_lt (by norm_num) hn).mp h
    omega

theorem natDigits_ne_nil (n : Nat) : natDigits n ≠ [] := by
  rw [natDigits]
  split
  · simp
  · rename_i hn
    simp only [ne_eq, List.map_eq_nil_iff, List.reverse_eq_nil_iff]
    exact Nat.digits_ne_nil_iff_ne_zero.mpr hn

theorem takeWhile_digits (ds more : List Char) (hds : ∀ d ∈ ds, isDigitCh d = true)
    (hm : ∀ c, more.head? = some c → isDigitCh c = false) :
    (ds ++ more).takeWhile (fun d => isDigitCh d) = ds := by
  induction ds with
  | nil =>
    cases more with
    | nil => rfl
    | cons c t => simp [List.takeWhile_cons, hm c rfl]
  | cons d t ih =>
    rw [List.cons_append, List.takeWhile_cons, hds d (List.mem_cons_self d t)]
    simp [ih fun x hx => hds x (List.mem_cons_of_mem d hx)]

theorem dropWhile_digits (ds more : List Char) (hds : ∀ d ∈ ds, isDigitCh d = true)
    (hm : ∀ c, more.head? = some c → isDigitCh c = false) :
    (ds ++ more).dropWhile (fun d => isDigitCh d) = more := by
  induction ds with
  | nil =>
    cases more with
    | nil => rfl
    | cons c t => simp [List.dropWhile_cons, hm c rfl]
  | cons d t ih =>
    rw [List.cons_append, List.dropWhile_cons, hds d (List.mem_cons_self d t)]
    simpa using ih fun x hx => hds x (List.mem_cons_of_mem d hx)

theorem span_digits_exact (ds more : List Char) (hds : ∀ d ∈ ds, isDigitCh d = true)
    (hm : ∀ c, more.head? = some c → isDigitCh c = false) :
    (ds ++ more).span (fun d => isDigitCh d) = (ds, more) := by
  rw [List.span_eq_take_drop, takeWhile_digits ds more hds hm, dropWhile_digits ds more hds hm]

theorem natDigits_head_ne_zero (n : Nat) (hn : n ≠ 0) :
    ∃ c cs, natDigits n = c :: cs ∧ c ≠ '0' := by
  rw [natDigits, if_neg hn]
  have hne : Nat.digits 10 n ≠ [] := Nat.digits_ne_nil_iff_ne_zero.mpr hn
  rcases hrev : (Nat.digits 10 n).reverse with _ | ⟨c, cs⟩
  · exact absurd (by simpa using congrArg List.reverse hrev) hne
  · refine ⟨Char.ofNat (48 + c), cs.map fun d => Char.ofNat (48 + d), ?_, ?_⟩
    · rfl
    have hc_mem : c ∈ Nat.digits 10 n :=
      List.mem_reverse.mp (hrev ▸ List.mem_cons_self c cs)
    have hc10 : c < 10 := Nat.digits_lt_base (by norm_num) hc_mem
    have hlast : (Nat.digits 10 n).getLast hne = c := by
      have hl : Nat.digits 10 n = (cs.reverse).concat c := by
        rw [List.concat_eq_append, ← List.reverse_cons, ← hrev, List.reverse_reverse]
      rw [List.getLast_congr _ (by simp [List.concat_eq_append]) hl]
      simp [List.getLast_concat]
    have hc0 : c ≠ 0 := hlast ▸ Nat.getLast_digit_ne_zero 10 hn
    intro hcon
    have := congrArg Char.toNat hcon
    rw [toNat_digitChar c hc10] at this
    simp only [show ('0').toNat = 48 from rfl] at this
    omega

theorem parseIntPart_cons (c : Char) (rest : List Char) :
    parseIntPart (c :: rest) =
      (if c = '0' then some (['0'], rest)
      else if isDigitCh c then
        some (c :: (rest.span fun d => isDigitCh d).1, (rest.span fun d => isDigitCh d).2)
      else none) := rfl

theorem parseIntPart_print (n : Nat) (more : List Char)
    (hm : ∀ c, more.head? = some c → isDigitCh c = false) :
    parseIntPart (natDigits n ++ more) = some (natDigits n, more) := by
  by_cases hn : n = 0
  · subst hn
    rw [show natDigits 0 = ['0'] from rfl, List.cons_append, List.nil_append,
      parseIntPart_cons, if_pos rfl]
  · obtain ⟨c, cs, heq, hc0⟩ := natDigits_head_ne_zero n hn
    have hall := natDigits_all_digit n
    rw [heq, List.cons_append, parseIntPart_cons, if_neg hc0,
      if_pos (hall c (heq ▸ List.mem_cons_self c cs)),
      span_digits_exact cs more (fun d hd => hall d (heq ▸ List.mem_cons_of_mem c hd)) hm]

theorem parseFrac_cons (c : Char) (t : List Char) :
    parseFrac (c :: t) =
      (if c = '.' then
        if (t.span fun d => isDigitCh d).1.isEmpty then none
        else some ((t.span fun d => isDigitCh d).1, (t.span fun d => isDigitCh d).2)
      else some ([], c :: t)) := rfl

theorem parseFrac_print (d : Char) (ds rest : List Char)
    (hds : ∀ x ∈ d :: ds, isDigitCh x = true)
    (hm : ∀ c, rest.head? = some c → isDigitCh c = false) :
    parseFrac ('.' :: ((d :: ds) ++ rest)) = some (d :: ds, rest) := by
  rw [parseFrac_cons, if_pos rfl, span_digits_exact (d :: ds) rest hds hm]
  rfl

theorem parseExp_cons (c : Char) (t : List Char) :
    parseExp (c :: t) =
      (if c = 'e' ∨ c = 'E' then
        match t with
        | [] => none
        | s :: u =>
          if s = '+' then expDigits 1 u
          else if s = '-' then expDigits (-1) u
          else expDigits 1 (s :: u)
      else some (0, c :: t)) := rfl

theorem parseExp_none (rest : List Char)
    (hm : ∀ c, rest.head? = some c → c ≠ 'e' ∧ c ≠ 'E') :
    parseExp rest = some (0, rest) := by
  cases rest with
  | nil => rfl
  | cons c t =>
    have hc := hm c rfl
    rw [parseExp_cons, if_neg (by push_neg; exact hc)]

theorem parseUNumber_print (m k : Nat) (rest : List Char) (hb : NumBoundary rest) :
    parseUNumber (natDigits (m / 10 ^ k) ++ '.' ::
        ((if k = 0 then ['0'] else natDigitsPadded (m % 10 ^ k) k) ++ rest))
      = some ((m : ℚ) / (10 : ℚ) ^ k, rest) := by
  rw [parseUNumber,
    parseIntPart_print (m / 10 ^ k) _ (fun c hc => by
      simp only [List.head?_cons, Option.some.injEq] at hc
      subst hc
      decide),
    Option.some_bind]
  by_cases hk : k = 0
  · subst hk
    rw [if_pos rfl]
    show (parseFrac ('.' :: (['0'] ++ rest))).bind _ = _
    rw [parseFrac_print '0' [] rest (by decide) (fun c hc => (hb c hc).1),
      Option.some_bind, parseExp_none rest (fun c hc => (hb c hc).2), Option.map_some']
    simp only [Option.some.injEq, Prod.mk.injEq]
    refine ⟨?_, trivial⟩
    rw [digitsToNat_append]
    simp only [Nat.pow_zero, Nat.div_one, digitsToNat_natDigits,
      show digitsToNat ['0'] = 0 from rfl, List.length_singleton, zpow_zero, pow_zero]
    push_cast
    field_simp
  · rw [if_neg hk]
    have hk1 : 1 ≤ k := by omega
    have hmod : m % 10 ^ k < 10 ^ k := Nat.mod_lt m (by positivity)
    have hlen : (natDigits (m % 10 ^ k)).length ≤ k :=
      natDigits_length_le _ k hmod hk1
    have hpadlen : (natDigitsPadded (m % 10 ^ k) k).length = k := by
      rw [natDigitsPadded, List.length_append, List.length_replicate]
      omega
    have hpadall : ∀ x ∈ natDigitsPadded (m % 10 ^ k) k, isDigitCh x = true := by
      intro x hx
      rw [natDigitsPadded] at hx
      rcases List.mem_append.mp hx with hx | hx
      · rw [List.eq_of_mem_replicate hx]
        decide
      · exact natDigits_all_digit _ x hx
    have hpadval : digitsToNat (natDigitsPadded (m % 10 ^ k) k) = m % 10 ^ k := by
      rw [natDigitsPadded, digitsToNat_replicate_zeros, digitsToNat_natDigits]
    rcases hpad : natDigitsPadded (m % 10 ^ k) k with _ | ⟨d, ds⟩
    · exfalso
      rw [hpad] at hpadlen
      simp at hpadlen
      omega
    · show (parseFrac ('.' :: ((d :: ds) ++ rest))).bind _ = _
      rw [parseFrac_print d ds rest (hpad ▸ hpadall) (fun c hc => (hb c hc).1),
        Option.some_bind, parseExp_none rest (fun c hc => (hb c hc).2), Option.map_some']
      simp only [Option.some.injEq, Prod.mk.injEq]
      refine ⟨?_, trivial⟩
      rw [← hpad, digitsToNat_append, digitsToNat_natDigits, hpadval, hpadlen, zpow_zero,
        show m / 10 ^ k * 10 ^ k + m % 10 ^ k = m by
          rw [Nat.mul_comm]
          exact Nat.div_add_mod m (10 ^ k)]
      ring

theorem pow10Exp_dvd (d : Nat) (h : d ∣ 10 ^ d) : d ∣ 10 ^ pow10Exp d := by
  rw [pow10Exp]
  cases hf : (List.range (d + 1)).find? fun k => decide (d ∣ 10 ^ k) with
  | none =>
    exfalso
    have hex : ∃ x ∈ List.range (d + 1), (fun k => decide (d ∣ 10 ^ k)) x = true :=
      ⟨d, by simp, by simpa⟩
    have hs := List.find?_isSome.mpr hex
    rw [hf] at hs
    exact absurd hs (by simp)
  | some k =>
    have hk := List.find?_some hf
    simpa using hk

theorem parseNumber_cons (c : Char) (t : List Char) :
    parseNumber (c :: t) =
      (if c = '-' then (parseUNumber t).map fun p => (-p.1, p.2)
      else parseUNumber (c :: t)) := rfl

theorem digit_ne_minus {c : Char} (h : isDigitCh c = true) : c ≠ '-' := by
  intro hcon
  subst hcon
  exact absurd h (by decide)

/-- Parsing a printed number gives the number back, provided the
denominator is a power-of-ten divisor and the following character cannot
extend the number. -/
theorem parseNumber_print (q : ℚ) (hq : DecimalRepr q) (rest : List Char)
    (hb : NumBoundary rest) :
    parseNumber (printNum q ++ rest) = some (q, rest) := by
  have hdvdN : q.den ∣ 10 ^ pow10Exp q.den := pow10Exp_dvd q.den hq
  have hdvd : (q.den : ℤ) ∣ (10 : ℤ) ^ pow10Exp q.den := by exact_mod_cast hdvdN
  have hdenpos : (0 : ℤ) < q.den := by exact_mod_cast q.pos
  have hd0 : (q.den : ℚ) ≠ 0 := by
    have := q.pos
    positivity
  have hMden : q.num * 10 ^ pow10Exp q.den / q.den * q.den = q.num * 10 ^ pow10Exp q.den :=
    Int.ediv_mul_cancel (Dvd.dvd.mul_left hdvd q.num)
  have hnumq : (q.num : ℚ) = q * q.den := by
    have h := Rat.num_div_den q
    have h2 : (q.num : ℚ) / q.den * q.den = q * q.den := by rw [h]
    rwa [div_mul_cancel₀ _ hd0] at h2
  have hqQ : ((q.num * 10 ^ pow10Exp q.den / q.den : ℤ) : ℚ) / (10 : ℚ) ^ pow10Exp q.den
      = q := by
    have h10 : ((10 : ℚ) ^ pow10Exp q.den) ≠ 0 := by positivity
    rw [div_eq_iff h10]
    have hc := congrArg (fun z : ℤ => (z : ℚ)) hMden
    push_cast at hc
    rw [hnumq] at hc
    apply mul_right_cancel₀ hd0
    rw [mul_comm ((q.num * 10 ^ pow10Exp q.den / q.den : ℤ) : ℚ) (q.den : ℚ)] at hc
    rw [mul_comm] at hc
    rw [hc]
    ring
  by_cases hneg : q.num < 0
  · have hMneg : q.num * 10 ^ pow10Exp q.den / q.den < 0 := by
      by_contra hge
      push_neg at hge
      have h1 : 0 ≤ q.num * 10 ^ pow10Exp q.den / q.den * q.den :=
        mul_nonneg hge (le_of_lt hdenpos)
      rw [hMden] at h1
      have h2 : q.num * 10 ^ pow10Exp q.den < 0 :=
        mul_neg_of_neg_of_pos hneg (by positivity)
      omega
    rw [printNum, if_pos hneg]
    simp only [List.cons_append, List.nil_append, List.append_assoc]
    rw [parseNumber_cons, if_pos rfl,
      parseUNumber_print _ (pow10Exp q.den) rest hb, Option.map_some']
    simp only [Option.some.injEq, Prod.mk.injEq]
    refine ⟨?_, trivial⟩
    have hMnegQ : ((q.num * 10 ^ pow10Exp q.den / q.den : ℤ) : ℚ) < 0 := by
      exact_mod_cast hMneg
    rw [Int.cast_natAbs, abs_of_neg hMneg, Int.cast_neg, neg_div, neg_neg]
    exact hqQ
  · have hMpos : 0 ≤ q.num * 10 ^ pow10Exp q.den / q.den :=
      Int.ediv_nonneg (mul_nonneg (by omega) (by positivity)) (le_of_lt hdenpos)
    rw [printNum, if_neg hneg, List.nil_append]
    rcases hnd : natDigits ((q.num * 10 ^ pow10Exp q.den / q.den).natAbs / 10 ^ pow10Exp q.den)
      with _ | ⟨c, cs⟩
    · exact absurd hnd (natDigits_ne_nil _)
    · have hcdig : isDigitCh c = true :=
        natDigits_all_digit _ c (hnd ▸ List.mem_cons_self c cs)
      have hshape2 : c :: (cs ++ '.' :: ((if pow10Exp q.den = 0 then ['0']
            else natDigitsPadded ((q.num * 10 ^ pow10Exp q.den / q.den).natAbs % 10 ^ pow10Exp q.den)
              (pow10Exp q.den)) ++ rest))
          = natDigits ((q.num * 10 ^ pow10Exp q.den / q.den).natAbs / 10 ^ pow10Exp q.den)
            ++ '.' :: ((if pow10Exp q.den = 0 then ['0']
            else natDigitsPadded ((q.num * 10 ^ pow10Exp q.den / q.den).natAbs % 10 ^ pow10Exp q.den)
              (pow10Exp q.den)) ++ rest) := by
        rw [hnd]
        rfl
      simp only [List.cons_append, List.append_assoc]
      rw [parseNumber_cons, if_neg (digit_ne_minus hcdig), hshape2,
        parseUNumber_print _ (pow10Exp q.den) rest hb]
      simp only [Option.some.injEq, Prod.mk.injEq]
      refine ⟨?_, trivial⟩
      have hMposQ : (0 : ℚ) ≤ ((q.num * 10 ^ pow10Exp q.den / q.den : ℤ) : ℚ) := by
        exact_mod_cast hMpos
      rw [Int.cast_natAbs, abs_of_nonneg hMpos]
      exact hqQ

/-! ### Roundtrip: flat JSON values -/

theorem skipWs_cons (c : Char) (rest : List Char) :
    skipWs (c :: rest) =
      (if c = ' ' ∨ c = '\t' ∨ c = '\n' ∨ c = '\r' then skipWs rest else c :: rest) := rfl

theorem skipWs_ws_append (w rest : List Char)
    (hw : ∀ c ∈ w, c = ' ' ∨ c = '\t' ∨ c = '\n' ∨ c = '\r') :
    skipWs (w ++ rest) = skipWs rest := by
  induction w with
  | nil => rfl
  | cons c t ih =>
    rw [List.cons_append, skipWs_cons, if_pos (hw c (List.mem_cons_self c t))]
    exact ih fun x hx => hw x (List.mem_cons_of_mem c hx)

theorem skipWs_not_ws (c : Char) (rest : List Char)
    (hc : ¬(c = ' ' ∨ c = '\t' ∨ c = '\n' ∨ c = '\r')) :
    skipWs (c :: rest) = c :: rest := by
  rw [skipWs_cons, if_neg hc]

theorem take_one_cons {a : Char} {l : List Char} : (a :: l).take 1 = [a] := rfl

theorem drop_one_cons {a : Char} {l : List Char} : (a :: l).drop 1 = l := rfl

theorem escapeChar_length_pos (c : Char) : 0 < (escapeChar c).length := by
  rw [escapeChar]
  split
  · simp
  repeat'
    first
    | split
    | simp [uEscape]

theorem length_le_flatMap_escape (cs : List Char) :
    cs.length ≤ (cs.flatMap escapeChar).length := by
  induction cs with
  | nil => simp
  | cons c t ih =>
    rw [List.flatMap_cons, List.length_append, List.length_cons]
    have := escapeChar_length_pos c
    omega

theorem printNum_head (q : ℚ) :
    ∃ c t, printNum q = c :: t ∧ (c = '-' ∨ isDigitCh c = true) := by
  rw [printNum]
  by_cases hneg : q.num < 0
  · exact ⟨'-', _, by rw [if_pos hneg]; rfl, Or.inl rfl⟩
  · rw [if_neg hneg, List.nil_append]
    rcases hnd : natDigits ((q.num * 10 ^ pow10Exp q.den / q.den).natAbs / 10 ^ pow10Exp q.den)
      with _ | ⟨c, cs⟩
    · exact absurd hnd (natDigits_ne_nil _)
    · exact ⟨c, _, by rw [List.cons_append],
        Or.inr (natDigits_all_digit _ c (hnd ▸ List.mem_cons_self c cs))⟩

theorem numStart_props (c : Char) (h : c = '-' ∨ isDigitCh c = true) :
    ¬(c = ' ' ∨ c = '\t' ∨ c = '\n' ∨ c = '\r') ∧ c ≠ '"' ∧ c ≠ '\x7b' ∧ c ≠ '[' ∧
      c ≠ 't' ∧ c ≠ 'f' ∧ c ≠ 'n' := by
  rcases h with h | h
  · subst h
    decide
  · refine ⟨?_, ?_, ?_, ?_, ?_, ?_, ?_⟩ <;>
      first
      | (intro hws
         rcases hws with hc | hc | hc | hc <;> (subst hc; exact absurd h (by decide)))
      | (intro hc; subst hc; exact absurd h (by decide))

theorem parseVal_succ (fuel : Nat) (cs : List Char) :
    parseVal (fuel + 1) cs = parseValCore (fun cs2 => parseVal fuel cs2) (skipWs cs) := rfl

theorem parseValCore_cons (pv : List Char → Option (Json × List Char)) (c : Char)
    (rest : List Char) :
    parseValCore pv (c :: rest) =
    (if c = '"' then
      (parseJStringBody rest.length rest).map fun p => (.str ⟨p.1⟩, p.2)
    else if c = '\x7b' then
      if (skipWs rest).take 1 = ['\x7d'] then some (.obj [], (skipWs rest).drop 1)
      else (parseMembersLoop pv (rest.length + 1) rest).map fun p => (.obj p.1, p.2)
    else if c = '[' then
      if (skipWs rest).take 1 = [']'] then some (.arr [], (skipWs rest).drop 1)
      else (parseElemsLoop pv (rest.length + 1) rest).map fun p => (.arr p.1, p.2)
    else if c = 't' then
      if rest.take 3 = ['r', 'u', 'e'] then some (.bool true, rest.drop 3) else none
    else if c = 'f' then
      if rest.take 4 = ['a', 'l', 's', 'e'] then some (.bool false, rest.drop 4) else none
    else if c = 'n' then
      if rest.take 3 = ['u', 'l', 'l'] then some (.null, rest.drop 3) else none
    else
      (parseNumber (c :: rest)).map fun p => (.num p.1, p.2)) := rfl

theorem printJson_str (ind : Nat) (s : String) : printJson ind (.str s) = printJString s := by
  rw [printJson]

theorem printJson_num (ind : Nat) (q : ℚ) : printJson ind (.num q) = printNum q := by
  rw [printJson]

/-- Parsing a printed flat value with one leading space gives the value
back (the space models the one the printer writes after a colon). -/
theorem parseVal_print_flat (f : Nat) (v : Json) (hv : FlatVal v) (ind : Nat)
    (rest : List Char) (hb : NumBoundary rest) :
    parseVal (f + 1) (' ' :: (printJson ind v ++ rest)) = some (v, rest) := by
  cases v with
  | str s =>
    rw [printJson_str, parseVal_succ, skipWs_cons, if_pos (Or.inl rfl), printJString]
    simp only [List.cons_append, List.append_assoc, List.nil_append]
    rw [skipWs_not_ws _ _ (by decide), parseValCore_cons, if_pos rfl,
      parseJStringBody_print s.data rest _ (by
        rw [List.length_append, List.length_cons]
        have := length_le_flatMap_escape s.data
        omega)]
    rfl
  | num q =>
    obtain ⟨c, t, hct, hstart⟩ := printNum_head q
    obtain ⟨hnws, hq2, hbrace, hbrk, ht, hf2, hn2⟩ := numStart_props c hstart
    rw [printJson_num, parseVal_succ, skipWs_cons, if_pos (Or.inl rfl), hct,
      List.cons_append, skipWs_not_ws _ _ hnws, parseValCore_cons,
      if_neg hq2, if_neg hbrace, if_neg hbrk, if_neg ht, if_neg hf2, if_neg hn2,
      ← List.cons_append, ← hct, parseNumber_print q hv rest hb]
    rfl
  | null => exact hv.elim
  | bool b => exact hv.elim
  | arr es => exact hv.elim
  | obj kvs => exact hv.elim

/-! ### Roundtrip: printed objects -/

theorem joinSep_single (sep x : List Char) : joinSep sep [x] = x := rfl

theorem joinSep_cons2 (sep x y : List Char) (t : List (List Char)) :
    joinSep sep (x :: y :: t) = x ++ sep ++ joinSep sep (y :: t) := rfl

theorem parseMembersLoop_succ (pv : List Char → Option (Json × List Char)) (fuel : Nat)
    (cs : List Char) :
    parseMembersLoop pv (fuel + 1) cs
      = parseMemberCore pv (fun cs5 => parseMembersLoop pv fuel cs5) (skipWs cs) := rfl

theorem parseMemberCore_cons (pv : List Char → Option (Json × List Char))
    (loop : List Char → Option (List (String × Json) × List Char)) (c : Char)
    (cs1 : List Char) :
    parseMemberCore pv loop (c :: cs1) =
    (if c = '"' then
      (parseJStringBody cs1.length cs1).bind fun kp =>
        if (skipWs kp.2).take 1 = [':'] then
          (pv ((skipWs kp.2).drop 1)).bind fun vp =>
            if (skipWs vp.2).take 1 = [','] then
              (loop ((skipWs vp.2).drop 1)).map fun p => ((⟨kp.1⟩, vp.1) :: p.1, p.2)
            else if (skipWs vp.2).take 1 = ['\x7d'] then
              some ([(⟨kp.1⟩, vp.1)], (skipWs vp.2).drop 1)
            else none
        else none
    else none) := rfl

theorem mem_nl_spaces_ws (n : Nat) :
    ∀ c ∈ '\n' :: spaces n, c = ' ' ∨ c = '\t' ∨ c = '\n' ∨ c = '\r' := by
  intro c hc
  rcases List.mem_cons.mp hc with h | h
  · subst h
    right; right; left; rfl
  · rw [spaces] at h
    rw [List.eq_of_mem_replicate h]
    left; rfl

/-- Parsing the printed members of a nonempty flat object: each listed
member is read back in printed order, and the input after the closing
brace is returned. One unit of loop fuel is spent per member. -/
theorem membersLoop_print (n ind : Nat) (rest' : List Char) :
    ∀ (ms : List (String × Json)) (f : Nat), ms ≠ [] →
    (∀ kv ∈ ms, FlatVal kv.2) → ms.length ≤ f →
    parseMembersLoop (fun cs2 => parseVal (n + 1) cs2) f
      ('\n' :: (joinSep (',' :: '\n' :: []) (ms.map fun kv =>
          spaces (ind + 2) ++ printJString kv.1 ++ ':' :: ' ' :: printJson (ind + 2) kv.2)
        ++ '\n' :: (spaces ind ++ '\x7d' :: rest')))
      = some (ms, rest') := by
  intro ms
  induction ms with
  | nil => intro f h; exact absurd rfl h
  | cons m ms' ih =>
    intro f _ hflat hf
    cases f with
    | zero => simp at hf
    | succ f' =>
      rw [parseMembersLoop_succ]
      cases ms' with
      | nil =>
        have hin : '\n' :: (joinSep (',' :: '\n' :: []) ([m].map fun kv =>
              spaces (ind + 2) ++ printJString kv.1 ++ ':' :: ' ' :: printJson (ind + 2) kv.2)
            ++ '\n' :: (spaces ind ++ '\x7d' :: rest'))
            = ('\n' :: spaces (ind + 2)) ++ ('"' :: (m.1.data.flatMap escapeChar
              ++ '"' :: (':' :: ' ' :: (printJson (ind + 2) m.2
                ++ '\n' :: (spaces ind ++ '\x7d' :: rest'))))) := by
          rw [List.map_cons, List.map_nil, joinSep_single, printJString]
          simp [List.append_assoc]
        rw [hin, skipWs_ws_append _ _ (mem_nl_spaces_ws (ind + 2)),
          skipWs_not_ws _ _ (by decide), parseMemberCore_cons, if_pos rfl,
          parseJStringBody_print m.1.data _ _ (by
            rw [List.length_append, List.length_cons]
            have := length_le_flatMap_escape m.1.data
            omega)]
        simp only [Option.some_bind]
        rw [skipWs_not_ws _ _ (by decide), take_one_cons, if_pos rfl, drop_one_cons,
          parseVal_print_flat n m.2 (hflat m (List.mem_cons_self m [])) (ind + 2) _
            (by intro c hc; simp only [List.head?_cons, Option.some.injEq] at hc; subst hc; decide)]
        simp only [Option.some_bind]
        have hclose : skipWs ('\n' :: (spaces ind ++ '\x7d' :: rest')) = '\x7d' :: rest' := by
          rw [show '\n' :: (spaces ind ++ '\x7d' :: rest')
              = ('\n' :: spaces ind) ++ ('\x7d' :: rest') by simp,
            skipWs_ws_append _ _ (mem_nl_spaces_ws ind), skipWs_not_ws _ _ (by decide)]
        rw [hclose, take_one_cons, if_neg (by decide), if_pos rfl, drop_one_cons]
      | cons m2 ms'' =>
        have hin : '\n' :: (joinSep (',' :: '\n' :: []) ((m :: m2 :: ms'').map fun kv =>
              spaces (ind + 2) ++ printJString kv.1 ++ ':' :: ' ' :: printJson (ind + 2) kv.2)
            ++ '\n' :: (spaces ind ++ '\x7d' :: rest'))
            = ('\n' :: spaces (ind + 2)) ++ ('"' :: (m.1.data.flatMap escapeChar
              ++ '"' :: (':' :: ' ' :: (printJson (ind + 2) m.2
                ++ ',' :: ('\n' :: (joinSep (',' :: '\n' :: []) ((m2 :: ms'').map fun kv =>
                    spaces (ind + 2) ++ printJString kv.1 ++ ':' :: ' ' :: printJson (ind + 2) kv.2)
                  ++ '\n' :: (spaces ind ++ '\x7d' :: rest'))))))) := by
          rw [List.map_cons, List.map_cons, joinSep_cons2, printJString]
          simp [List.append_assoc]
        rw [hin, skipWs_ws_append _ _ (mem_nl_spaces_ws (ind + 2)),
          skipWs_not_ws _ _ (by decide), parseMemberCore_cons, if_pos rfl,
          parseJStringBody_print m.1.data _ _ (by
            rw [List.length_append, List.length_cons]
            have := length_le_flatMap_escape m.1.data
            omega)]
        simp only [Option.some_bind]
        rw [skipWs_not_ws _ _ (by decide), take_one_cons, if_pos rfl, drop_one_cons,
          parseVal_print_flat n m.2 (hflat m (List.mem_cons_self m _)) (ind + 2) _
            (by intro c hc; simp only [List.head?_cons, Option.some.injEq] at hc; subst hc; decide)]
        simp only [Option.some_bind]
        rw [skipWs_not_ws _ _ (by decide), take_one_cons, if_pos rfl, drop_one_cons,
          ih f' (by simp) (fun kv hkv => hflat kv (List.mem_cons_of_mem m hkv))
            (by simp only [List.length_cons] at hf ⊢; omega)]
        rfl

theorem insertPair_mapVal (g : Json → List Char) (p : String × Json) :
    ∀ m : List (String × Json),
    insertPair (p.1, g p.2) (m.map fun kv => (kv.1, g kv.2))
      = (insertPair p m).map fun kv => (kv.1, g kv.2) := by
  intro m
  induction m with
  | nil => rfl
  | cons q t ih =>
    rw [List.map_cons, insertPair, insertPair]
    by_cases hle : p.1 ≤ q.1
    · rw [if_pos hle, if_pos hle, List.map_cons, List.map_cons]
    · rw [if_neg hle, if_neg hle, List.map_cons, ih]

theorem sortPairs_mapVal (g : Json → List Char) :
    ∀ l : List (String × Json),
    sortPairs (l.map fun kv => (kv.1, g kv.2)) = (sortPairs l).map fun kv => (kv.1, g kv.2) := by
  intro l
  induction l with
  | nil => rfl
  | cons p t ih =>
    rw [List.map_cons, sortPairs, sortPairs, ih, insertPair_mapVal g p]

theorem insertPair_length {α : Type} (p : String × α) :
    ∀ m : List (String × α), (insertPair p m).length = m.length + 1 := by
  intro m
  induction m with
  | nil => rfl
  | cons q t ih =>
    rw [insertPair]
    by_cases hle : p.1 ≤ q.1
    · rw [if_pos hle]
      rfl
    · rw [if_neg hle, List.length_cons, ih, List.length_cons]

theorem sortPairs_length {α : Type} :
    ∀ l : List (String × α), (sortPairs l).length = l.length := by
  intro l
  induction l with
  | nil => rfl
  | cons p t ih =>
    rw [sortPairs, insertPair_length, ih, List.length_cons]

theorem joinSep_length_ge (sep : List Char) :
    ∀ items : List (List Char), (∀ x ∈ items, 0 < x.length) →
    items.length ≤ (joinSep sep items).length := by
  intro items
  induction items with
  | nil => simp [joinSep]
  | cons x t ih =>
    intro h
    cases t with
    | nil => simpa [joinSep_single] using h x (List.mem_cons_self x [])
    | cons y t2 =>
      rw [joinSep_cons2, List.length_append, List.length_append]
      have h1 := h x (List.mem_cons_self x _)
      have h2 := ih fun z hz => h z (List.mem_cons_of_mem x hz)
      simp only [List.length_cons] at h2 ⊢
      omega

theorem insertPair_perm {α : Type} (p : String × α) :
    ∀ m : List (String × α), List.Perm (insertPair p m) (p :: m) := by
  intro m
  induction m with
  | nil => exact List.Perm.refl _
  | cons q t ih =>
    rw [insertPair]
    by_cases hle : p.1 ≤ q.1
    · rw [if_pos hle]
    · rw [if_neg hle]
      exact (ih.cons q).trans (List.Perm.swap p q t)

theorem sortPairs_perm {α : Type} :
    ∀ l : List (String × α), List.Perm (sortPairs l) l := by
  intro l
  induction l with
  | nil => exact List.Perm.refl _
  | cons p t ih =>
    rw [sortPairs]
    exact (insertPair_perm p (sortPairs t)).trans (ih.cons p)

theorem mem_sortPairs {α : Type} {l : List (String × α)} {kv : String × α}
    (h : kv ∈ sortPairs l) : kv ∈ l :=
  (sortPairs_perm l).mem_iff.mp h

/-- Parsing the dump of a flat object gives the object back, with its
members in the key-sorted order json.dumps wrote them. -/
theorem json_loads_dumps_flatObj (l : List (String × Json))
    (hflat : ∀ kv ∈ l, FlatVal kv.2) :
    json_loads (json_dumps (.obj l)) = some (.obj (sortPairs l)) := by
  cases l with
  | nil =>
    have h : json_dumps (.obj []) = ⟨['\x7b', '\x7d']⟩ := by
      rw [json_dumps, printJson]
    rw [h]
    rfl
  | cons kv0 kvs =>
    rw [json_dumps, json_loads]
    show (parseVal ((printJson 0 (.obj (kv0 :: kvs))).length + 1)
        (printJson 0 (.obj (kv0 :: kvs)))).bind _ = _
    have hprint : printJson 0 (.obj (kv0 :: kvs)) =
        '\x7b' :: '\n' ::
          joinSep (',' :: '\n' :: [])
            ((sortPairs (kv0 :: kvs)).map fun kv =>
              spaces (0 + 2) ++ printJString kv.1 ++ ':' :: ' ' :: printJson (0 + 2) kv.2)
          ++ '\n' :: (spaces 0 ++ '\x7d' :: []) := by
      rw [printJson, List.attach_map_val (kv0 :: kvs) fun kv => (kv.1, printJson (0 + 2) kv.2),
        sortPairs_mapVal, List.map_map]
      rfl
    rw [hprint]
    have hsortlen := sortPairs_length (l := kv0 :: kvs)
    rcases hsort : sortPairs (kv0 :: kvs) with _ | ⟨m1, ms1⟩
    · rw [hsort] at hsortlen
      simp at hsortlen
    rw [hsort] at hsortlen
    have hsflat : ∀ kv ∈ m1 :: ms1, FlatVal kv.2 := fun kv hkv =>
      hflat kv (mem_sortPairs (hsort ▸ hkv))
    set REST := '\n' :: (joinSep (',' :: '\n' :: []) ((m1 :: ms1).map fun kv =>
        spaces (0 + 2) ++ printJString kv.1 ++ ':' :: ' ' :: printJson (0 + 2) kv.2)
      ++ '\n' :: (spaces 0 ++ '\x7d' :: [])) with hREST
    show (parseVal (('\x7b' :: REST).length + 1) ('\x7b' :: REST)).bind _ = _
    rw [show ('\x7b' :: REST).length + 1 = (REST.length + 1) + 1 by simp,
      parseVal_succ, skipWs_not_ws _ _ (by decide), parseValCore_cons,
      if_neg (by decide), if_pos rfl]
    have hitems_pos : ∀ x ∈ (m1 :: ms1).map fun kv =>
        spaces (0 + 2) ++ printJString kv.1 ++ ':' :: ' ' :: printJson (0 + 2) kv.2,
        0 < x.length := by
      intro x hx
      rcases List.mem_map.mp hx with ⟨kv, _, rfl⟩
      simp [spaces, printJString]
    have hskrest : ∃ Z, skipWs REST = '"' :: Z := by
      cases ms1 with
      | nil =>
        have hR2 : REST = ('\n' :: spaces (0 + 2)) ++ ('"' :: (m1.1.data.flatMap escapeChar
            ++ '"' :: (':' :: ' ' :: (printJson (0 + 2) m1.2
              ++ '\n' :: (spaces 0 ++ '\x7d' :: []))))) := by
          rw [hREST, List.map_cons, List.map_nil, joinSep_single, printJString]
          simp
        exact ⟨_, by
          rw [hR2, skipWs_ws_append _ _ (mem_nl_spaces_ws (0 + 2)),
            skipWs_not_ws _ _ (by decide)]⟩
      | cons m2 ms2 =>
        have hR2 : REST = ('\n' :: spaces (0 + 2)) ++ ('"' :: (m1.1.data.flatMap escapeChar
            ++ '"' :: (':' :: ' ' :: (printJson (0 + 2) m1.2 ++ ',' :: ('\n' ::
              (joinSep (',' :: '\n' :: []) ((m2 :: ms2).map fun kv =>
                spaces (0 + 2) ++ printJString kv.1 ++ ':' :: ' ' :: printJson (0 + 2) kv.2)
              ++ '\n' :: (spaces 0 ++ '\x7d' :: []))))))) := by
          rw [hREST, List.map_cons, List.map_cons, joinSep_cons2, printJString]
          simp
        exact ⟨_, by
          rw [hR2, skipWs_ws_append _ _ (mem_nl_spaces_ws (0 + 2)),
            skipWs_not_ws _ _ (by decide)]⟩
    obtain ⟨Z, hZ⟩ := hskrest
    rw [hZ, take_one_cons, if_neg (by decide)]
    have hfuel : (m1 :: ms1).length ≤ REST.length + 1 := by
      have hj := joinSep_length_ge (',' :: '\n' :: []) _ hitems_pos
      rw [hREST]
      simp only [List.length_cons, List.length_append, List.length_map] at hj ⊢
      omega
    rw [membersLoop_print REST.length 0 [] (m1 :: ms1) (REST.length + 1)
      (by simp) hsflat hfuel]
    rfl

/-! ### Lemmas about payload lookup and the save/load roundtrip -/

/-- `List.lookup` is invariant under permutation when keys are distinct. -/
theorem lookup_perm_nodup {l₁ l₂ : List (String × Json)} (h : l₁.Perm l₂) (k : String) :
    (l₁.map Prod.fst).Nodup → l₁.lookup k = l₂.lookup k := by
  induction h with
  | nil => intro _; rfl
  | cons x h ih =>
    intro hnd
    rcases x with ⟨a, b⟩
    cases hk : k == a <;> simp only [List.lookup, hk]
    exact ih (by simpa using (List.nodup_cons.mp (by simpa using hnd)).2)
  | swap x y t =>
    intro hnd
    rcases x with ⟨a, b⟩
    rcases y with ⟨c, d⟩
    have hca : c ≠ a := by
      simp only [List.map_cons, List.nodup_cons, List.mem_cons] at hnd
      exact fun hc => hnd.1 (Or.inl hc)
    cases hkc : k == c <;> cases hka : k == a <;>
      simp only [List.lookup, hkc, hka]
    exact absurd ((eq_of_beq hkc).symm.trans (eq_of_beq hka)) hca
  | trans h₁ h₂ ih₁ ih₂ =>
    intro hnd
    exact (ih₁ hnd).trans (ih₂ (((h₁.map Prod.fst).nodup_iff).mp hnd))

/-- Sorting the members of an object does not change dict lookups when the
keys are distinct. -/
theorem dictGet_sortPairs (P : List (String × Json))
    (hnd : (P.map Prod.fst).Nodup) (k : String) :
    dictGet (sortPairs P) k = dictGet P k := by
  have hperm : (sortPairs P).reverse.Perm P.reverse :=
    ((sortPairs P).reverse_perm.trans (sortPairs_perm P)).trans P.reverse_perm.symm
  have hnd' : ((sortPairs P).reverse.map Prod.fst).Nodup := by
    rw [List.map_reverse, List.nodup_reverse]
    exact ((sortPairs_perm P).symm.map Prod.fst).nodup hnd
  exact lookup_perm_nodup hperm k hnd'

/-- `from_payload` only reads the payload through dict lookups, so sorting
the members is invisible to it when the keys are distinct. -/
theorem from_payload_sortPairs (P : List (String × Json))
    (hnd : (P.map Prod.fst).Nodup) :
    CredentialRecord.from_payload (sortPairs P) = CredentialRecord.from_payload P := by
  simp only [CredentialRecord.from_payload, optStrField, optNumField,
    dictGet_sortPairs P hnd]

/-- `from_payload` inverts `to_payload`. -/
theorem from_payload_to_payload (r : CredentialRecord) :
    CredentialRecord.from_payload r.to_payload = .ok r := by
  rcases r with ⟨a, rt, ea, sc, ci⟩
  rcases rt with _ | rt <;> rcases ea with _ | ea <;> rcases sc with _ | sc <;>
    rcases ci with _ | ci <;> rfl

/-- The payload of a record has pairwise-distinct keys. -/
theorem to_payload_keys_nodup (r : CredentialRecord) :
    (r.to_payload.map Prod.fst).Nodup := by
  rcases r with ⟨a, rt, ea, sc, ci⟩
  rcases rt with _ | rt <;> rcases ea with _ | ea <;> rcases sc with _ | sc <;>
    rcases ci with _ | ci <;> simp [CredentialRecord.to_payload]

/-- Every payload value is flat: a string, or a number whose value the
printer represents exactly. -/
theorem to_payload_flat (r : CredentialRecord)
    (hr : ∀ e, r.expires_at = some e → DecimalRepr e) :
    ∀ kv ∈ r.to_payload, FlatVal kv.2 := by
  rcases r with ⟨a, rt, ea, sc, ci⟩
  intro kv hkv
  simp only [CredentialRecord.to_payload, List.mem_append, List.mem_cons,
    List.not_mem_nil, or_false] at hkv
  rcases hkv with ((((h | h) | h) | h) | h)
  · rw [h]; trivial
  · rcases rt with _ | v
    · simp at h
    · simp only [List.mem_cons, List.not_mem_nil, or_false] at h
      rw [h]; trivial
  · rcases ea with _ | v
    · simp at h
    · simp only [List.mem_cons, List.not_mem_nil, or_false] at h
      rw [h]; exact hr v rfl
  · rcases sc with _ | v
    · simp at h
    · simp only [List.mem_cons, List.not_mem_nil, or_false] at h
      rw [h]; trivial
  · rcases ci with _ | v
    · simp at h
    · simp only [List.mem_cons, List.not_mem_nil, or_false] at h
      rw [h]; trivial

/-- Shape of a refresh call that passes the falsy check and whose response
carries an access token: it returns the updated record and saves it. -/
theorem refresh_ok_shape (p : String) (file : Option (List Nat))
    (r : CredentialRecord) (resp : TokenResponse) (now : Time)
    (hfal : falsyOptStr r.refresh_token = false) (tok : String)
    (htok : resp.access_token = some tok) :
    AuthorizationFlow.refresh p file r resp now =
      ⟨.ok ⟨tok,
        (match resp.refresh_token with | some v => some v | none => r.refresh_token),
        computeExpiresAt resp.expires_in now,
        (match resp.scope with | some v => some v | none => r.scope),
        r.client_id⟩, 1,
        some (CredentialStore.save p ⟨tok,
          (match resp.refresh_token with | some v => some v | none => r.refresh_token),
          computeExpiresAt resp.expires_in now,
          (match resp.scope with | some v => some v | none => r.scope),
          r.client_id⟩)⟩ := by
  simp only [AuthorizationFlow.refresh]
  rw [if_neg (by rw [hfal]; exact Bool.false_ne_true), htok]

/-- Shape of a refresh call that passes the falsy check but whose response
lacks an access token: indexing the response dict raises KeyError after
the single POST, with no save. -/
theorem refresh_keyError_shape (p : String) (file : Option (List Nat))
    (r : CredentialRecord) (resp : TokenResponse) (now : Time)
    (hfal : falsyOptStr r.refresh_token = false)
    (htok : resp.access_token = none) :
    AuthorizationFlow.refresh p file r resp now =
      ⟨.error (.keyError "access_token"), 1, file⟩ := by
  simp only [AuthorizationFlow.refresh]
  rw [if_neg (by rw [hfal]; exact Bool.false_ne_true), htok]

/-- Shape of a refresh call with a falsy stored refresh token: RuntimeError
before any network request, store untouched. -/
theorem refresh_falsy_shape (p : String) (file : Option (List Nat))
    (r : CredentialRecord) (resp : TokenResponse) (now : Time)
    (hfal : falsyOptStr r.refresh_token = true) :
    AuthorizationFlow.refresh p file r resp now =
      ⟨.error (.runtimeError "Refresh token missing; re-run authorization"), 0, file⟩ := by
  simp only [AuthorizationFlow.refresh]
  rw [if_pos hfal]

/-- Shape of exchange_code on a response carrying an access token. -/
theorem exchange_code_ok_shape (cid p : String) (resp : TokenResponse) (now : Time)
    (tok : String) (htok : resp.access_token = some tok) :
    exchange_code cid p resp now =
      .ok (⟨tok, resp.refresh_token, computeExpiresAt resp.expires_in now,
          resp.scope, some cid⟩,
        CredentialStore.save p ⟨tok, resp.refresh_token,
          computeExpiresAt resp.expires_in now, resp.scope, some cid⟩) := by
  simp only [exchange_code]
  rw [htok]

/-- Shape of exchange_code on a response lacking an access token. -/
theorem exchange_code_keyError_shape (cid p : String) (resp : TokenResponse)
    (now : Time) (htok : resp.access_token = none) :
    exchange_code cid p resp now = .error (.keyError "access_token") := by
  simp only [exchange_code]
  rw [htok]

/-! ### Claims C2, C7 and C8 -/

/-- C2 counterexample: the file content that decodes (empty passphrase, no
masking) to the valid JSON text of an empty object is malformed as a
credential record — it lacks access_token — yet load raises KeyError
instead of returning absent: only json.JSONDecodeError is caught, so
`payload["access_token"]` inside from_payload escapes. -/
theorem C2_counterexample :
    CredentialStore.load "" (some (strToUtf8 "\x7b\x7d")) =
      .error (.keyError "access_token") := rfl

/-- C2 (amended): load on a missing file returns absent with no error, and
content whose decoded text fails to parse as JSON also yields absent
(json.JSONDecodeError is caught); but content that parses as JSON and is
not a well-formed record escapes as an uncaught exception. -/
theorem C2_load_defensive (p : String) (bytes : List Nat) (text : String)
    (hdec : CredentialStore_decode p bytes = some text)
    (hjson : json_loads text = none) :
    CredentialStore.load p none = .ok none ∧
    CredentialStore.load p (some bytes) = .ok none := by
  refine ⟨rfl, ?_⟩
  show loadDecoded (CredentialStore_decode p bytes) = .ok none
  rw [hdec]
  show loadParsed (json_loads text) = .ok none
  rw [hjson]
  rfl

/-- Witness: a missing file and a file holding the non-JSON text "nope"
both load as absent. -/
theorem C2_load_defensive_witness :
    CredentialStore.load "" none = .ok none ∧
    CredentialStore.load "" (some (strToUtf8 "nope")) = .ok none :=
  C2_load_defensive "" (strToUtf8 "nope") "nope" rfl rfl

/-- C7 counterexample: a record whose refresh_token is present but empty.
The claim promises the error only when the token is absent and an update
otherwise; the code tests falsiness, so it raises RuntimeError here even
though the stored token is not absent and the response is well-formed. -/
theorem C7_counterexample :
    (AuthorizationFlow.refresh "pw" none
      ⟨"tok", some "", some 10, some "read:user", some "cid"⟩
      ⟨some "tok2", some "rt2", some 60, some "read:user"⟩ 0).result =
      .error (.runtimeError "Refresh token missing; re-run authorization") := rfl

/-- C7 (amended): refresh raises RuntimeError whenever the stored
refresh_token is falsy — absent or empty — and in that case performs no
network call and leaves the credential file unchanged; on a non-falsy
token and a response carrying access_token it performs one POST and
returns a record with access_token, refresh_token, expires_at and scope
updated as data.get dictates, client_id retained, persisted via save. -/
theorem C7_refresh_behaviour (p : String) (file : Option (List Nat))
    (r : CredentialRecord) (resp : TokenResponse) (now : Time) :
    (falsyOptStr r.refresh_token = true →
      AuthorizationFlow.refresh p file r resp now =
        ⟨.error (.runtimeError "Refresh token missing; re-run authorization"), 0, file⟩) ∧
    (falsyOptStr r.refresh_token = false → ∀ tok, resp.access_token = some tok →
      ∃ r' : CredentialRecord,
        AuthorizationFlow.refresh p file r resp now =
          ⟨.ok r', 1, some (CredentialStore.save p r')⟩ ∧
        r'.access_token = tok ∧
        r'.refresh_token = (match resp.refresh_token with
          | some v => some v
          | none => r.refresh_token) ∧
        r'.expires_at = computeExpiresAt resp.expires_in now ∧
        r'.scope = (match resp.scope with
          | some v => some v
          | none => r.scope) ∧
        r'.client_id = r.client_id) := by
  constructor
  · intro hfal
    exact refresh_falsy_shape p file r resp now hfal
  · intro hfal tok htok
    exact ⟨⟨tok,
      (match resp.refresh_token with | some v => some v | none => r.refresh_token),
      computeExpiresAt resp.expires_in now,
      (match resp.scope with | some v => some v | none => r.scope),
      r.client_id⟩,
      refresh_ok_shape p file r resp now hfal tok htok, rfl, rfl, rfl, rfl, rfl⟩

/-- Witness: an absent refresh token raises with no network call and an
untouched file; a present one with a fresh access token in the response
yields the updated, persisted record with client_id retained. -/
theorem C7_refresh_behaviour_witness :
    (AuthorizationFlow.refresh "" none ⟨"t", none, none, none, none⟩
        ⟨none, none, none, none⟩ 0 =
      ⟨.error (.runtimeError "Refresh token missing; re-run authorization"), 0, none⟩) ∧
    ∃ r' : CredentialRecord,
      AuthorizationFlow.refresh "" (some []) ⟨"t", some "rt", none, none, some "cid"⟩
          ⟨some "t2", none, some 60, none⟩ 5 =
        ⟨.ok r', 1, some (CredentialStore.save "" r')⟩ ∧
      r'.access_token = "t2" ∧
      r'.refresh_token = some "rt" ∧
      r'.expires_at = some 65 ∧
      r'.scope = none ∧
      r'.client_id = some "cid" := by
  constructor
  · exact (C7_refresh_behaviour "" none ⟨"t", none, none, none, none⟩
      ⟨none, none, none, none⟩ 0).1 rfl
  · obtain ⟨r', h1, h2, h3, h4, h5, h6⟩ :=
      (C7_refresh_behaviour "" (some []) ⟨"t", some "rt", none, none, some "cid"⟩
        ⟨some "t2", none, some 60, none⟩ 5).2 rfl "t2" rfl
    refine ⟨r', h1, h2, h3, ?_, h5, h6⟩
    rw [h4]
    show (if (60 : ℚ) ≠ 0 then some ((5 : ℚ) + 60) else none) = some 65
    rw [if_pos (by norm_num)]
    norm_num

/-- C8: loading right after saving a record returns that record (for every
record whose expiry the dump represents exactly, which covers every
Python float); exchange_code returns exactly the bytes save wrote for the
record it returns, and a successful refresh leaves the file holding the
save of the record it returns — so a load after either call observes the
returned record. -/
theorem C8_load_after_save (p : String) :
    (∀ r : CredentialRecord, (∀ e, r.expires_at = some e → DecimalRepr e) →
      CredentialStore.load p (some (CredentialStore.save p r)) = .ok (some r)) ∧
    (∀ cid resp now rec bytes,
      exchange_code cid p resp now = Except.ok (rec, bytes) →
      bytes = CredentialStore.save p rec) ∧
    (∀ file r resp now rec,
      (AuthorizationFlow.refresh p file r resp now).result = Except.ok rec →
      (AuthorizationFlow.refresh p file r resp now).file =
        some (CredentialStore.save p rec)) := by
  refine ⟨?_, ?_, ?_⟩
  · intro r hr
    show loadDecoded (CredentialStore_decode p (CredentialStore_encode p
      (json_dumps (Json.obj r.to_payload)))) = .ok (some r)
    rw [store_decode_encode]
    show loadParsed (json_loads (json_dumps (Json.obj r.to_payload))) = .ok (some r)
    rw [json_loads_dumps_flatObj r.to_payload (to_payload_flat r hr)]
    show (CredentialRecord.from_payload (sortPairs r.to_payload)).map some = .ok (some r)
    rw [from_payload_sortPairs r.to_payload (to_payload_keys_nodup r),
      from_payload_to_payload]
    rfl
  · intro cid resp now rec bytes hx
    rcases htok : resp.access_token with _ | tok
    · rw [exchange_code_keyError_shape cid p resp now htok] at hx
      exact Except.noConfusion hx
    · rw [exchange_code_ok_shape cid p resp now tok htok] at hx
      obtain ⟨h1, h2⟩ := Prod.mk.inj (Except.ok.inj hx)
      rw [← h2, h1]
  · intro file r resp now rec hres
    cases hfal : falsyOptStr r.refresh_token
    · rcases htok : resp.access_token with _ | tok
      · rw [refresh_keyError_shape p file r resp now hfal htok] at hres
        exact Except.noConfusion hres
      · rw [refresh_ok_shape p file r resp now hfal tok htok] at hres ⊢
        have h := Except.ok.inj hres
        rw [h]
    · rw [refresh_falsy_shape p file r resp now hfal] at hres
      exact Except.noConfusion hres

/-- Witness: a concrete record saved with the empty passphrase loads back
unchanged. -/
theorem C8_load_after_save_witness :
    CredentialStore.load "" (some (CredentialStore.save ""
      ⟨"tok", some "rt", none, some "read:user", some "cid"⟩)) =
      .ok (some ⟨"tok", some "rt", none, some "read:user", some "cid"⟩) :=
  (C8_load_after_save "").1 ⟨"tok", some "rt", none, some "read:user", some "cid"⟩
    (fun _ he => Option.noConfusion he)

end AnyrouterAuto
